import Mathlib

/-!
Verification of the decoding layer of the path-of-mirrors repository.

This file shallowly embeds the three decoders of the repository:

* the schema-less protobuf wire decoder of `backend/scripts/poeninja_proto.py`
  (`_decode_varint`, `_parse_message_internal`, `_try_parse_message`,
  `_parse_group`, `_parse_value`, `_decode_string`, `_parse_summaries`,
  `parse_build_search_payload`);
* the Path-of-Building import-code codec of
  `backend/src/contexts/builds/services/pob.py` (`decode_pob_code_to_xml`);
* the item-text micro-parser and slot extractor of the same module
  (`parse_item_text`, `extract_items`).

Modelling conventions:

* Python `bytes` values are `List Nat` with every element `< 256`.
* Python `str` values of the protobuf/codec pipelines are modelled by their
  UTF-8 byte sequences (`List Nat`); Python `str` values of the item-text
  parser are modelled as `List Char` (sequences of code points).
* Python exceptions are explicit `Except` error values; an uncaught
  exception of the source is an `.error` result of the embedding.
* The mutually recursive wire decoder is embedded with an explicit fuel
  parameter so that all recursions are structural; `parseFuel` fuel is
  proved sufficient below (`msgLoopF_no_fuelError` etc.), so the fueled
  functions agree with the unbounded Python recursion on every input.
-/

namespace PathOfMirrors

instance {ε α : Type _} [DecidableEq ε] [DecidableEq α] :
    DecidableEq (Except ε α) := fun
  | .ok a, .ok b =>
      if h : a = b then .isTrue (by rw [h])
      else .isFalse (fun hc => h (by cases hc; rfl))
  | .ok _, .error _ => .isFalse (fun hc => Except.noConfusion hc)
  | .error _, .ok _ => .isFalse (fun hc => Except.noConfusion hc)
  | .error e, .error f =>
      if h : e = f then .isTrue (by rw [h])
      else .isFalse (fun hc => h (by cases hc; rfl))

/-! ## Protobuf wire decoder (`backend/scripts/poeninja_proto.py`) -/

/-- Python exceptions raised (and caught) inside the wire decoder.
`fuelError` is an artifact of the fuel embedding and is proved unreachable
for the fuel used by the top-level wrappers. -/
inductive PErr where
  | indexError
  | valueError
  | fuelError
  deriving DecidableEq, Repr

/-- A decoded protobuf value: an unsigned integer (varint / 64-bit / 32-bit),
a raw byte string, or a nested message (field number ↦ ordered value list,
in insertion order, mirroring a Python `dict[int, list]`). -/
inductive Value where
  | int (n : Nat)
  | bytes (bs : List Nat)
  | msg (fields : List (Nat × List Value))
  deriving Repr

/-- A decoded message: ordered association list from field number to the
list of values seen for that field, preserving first-encounter key order. -/
abbrev Msg := List (Nat × List Value)

/-- Source `fields.setdefault(field_number, []).append(value)`: append `v` to the
entry of `k`, creating the entry at the end on first encounter. -/
def addField (m : Msg) (k : Nat) (v : Value) : Msg :=
  match m with
  | [] => [(k, [v])]
  | (k', vs) :: rest =>
      if k = k' then (k', vs ++ [v]) :: rest else (k', vs) :: addField rest k v

/-- Source `message.get(k)` on the field dictionary. -/
def msgGet (m : Msg) (k : Nat) : Option (List Value) :=
  match m with
  | [] => none
  | (k', vs) :: rest => if k = k' then some vs else msgGet rest k

/-- Source `message.get(k, [])` on the field dictionary. -/
def msgGetD (m : Msg) (k : Nat) : List Value :=
  (msgGet m k).getD []

/-- Source `any(key <= 3 for key in message)`. -/
def hasSmallKey (m : Msg) : Bool :=
  m.any (fun kv => kv.1 ≤ 3)

/-- Source `int.from_bytes(bs, "little")`. -/
def fromBytesLE : List Nat → Nat
  | [] => 0
  | b :: rest => b + 256 * fromBytesLE rest

/-- Loop of `_decode_varint`, reading from the suffix of the buffer that
starts at the current position; returns the decoded value and the number
of bytes consumed.  `result |= (value & 0x7F) << shift`; the loop ends on
a byte without the continuation bit and fails with `IndexError` when the
buffer is exhausted first. -/
def decodeVarintGo : List Nat → Nat → Nat → Except PErr (Nat × Nat)
  | [], _, _ => .error .indexError
  | b :: rest, shift, result =>
      let result' := result ||| ((b &&& 127) <<< shift)
      if b &&& 128 = 0 then
        .ok (result', 1)
      else
        match decodeVarintGo rest (shift + 7) result' with
        | .ok (v, n) => .ok (v, n + 1)
        | .error e => .error e

/-- Source `_decode_varint(buffer, pos) -> (value, new_pos)`. -/
def decode_varint (buffer : List Nat) (pos : Nat) : Except PErr (Nat × Nat) :=
  match decodeVarintGo (buffer.drop pos) 0 0 with
  | .ok (v, n) => .ok (v, pos + n)
  | .error e => .error e

mutual

/-- Fueled loop of `_parse_message_internal(buffer, start, end)`: decodes
fields from `pos` while `pos < end_`, accumulating them into `fields`. -/
def msgLoopF : Nat → List Nat → Nat → Nat → Msg → Except PErr (Msg × Nat)
  | 0, _, _, _, _ => .error .fuelError
  | fuel + 1, buffer, end_, pos, fields =>
      if pos < end_ then
        match decode_varint buffer pos with
        | .error e => .error e
        | .ok (key, pos₁) =>
            let fieldNumber := key >>> 3
            let wireType := key &&& 7
            if wireType = 0 then
              match decode_varint buffer pos₁ with
              | .error e => .error e
              | .ok (v, pos₂) =>
                  msgLoopF fuel buffer end_ pos₂ (addField fields fieldNumber (.int v))
            else if wireType = 1 then
              let v := fromBytesLE ((buffer.drop pos₁).take 8)
              msgLoopF fuel buffer end_ (pos₁ + 8) (addField fields fieldNumber (.int v))
            else if wireType = 2 then
              match decode_varint buffer pos₁ with
              | .error e => .error e
              | .ok (length, pos₂) =>
                  let chunk := (buffer.drop pos₂).take length
                  match tryParseF fuel chunk with
                  | .error e => .error e
                  | .ok (nested, consumed) =>
                      let value := if consumed then Value.msg nested else Value.bytes chunk
                      msgLoopF fuel buffer end_ (pos₂ + length) (addField fields fieldNumber value)
            else if wireType = 3 then
              match groupF fuel buffer pos₁ fieldNumber [] with
              | .error e => .error e
              | .ok (g, pos₂) =>
                  msgLoopF fuel buffer end_ pos₂ (addField fields fieldNumber (.msg g))
            else if wireType = 4 then
              .error .valueError
            else if wireType = 5 then
              let v := fromBytesLE ((buffer.drop pos₁).take 4)
              msgLoopF fuel buffer end_ (pos₁ + 4) (addField fields fieldNumber (.int v))
            else
              .error .valueError
      else
        .ok (fields, pos)
termination_by structural fuel _ _ _ _ => fuel

/-- Fueled `_try_parse_message(chunk)`: parse the chunk as a message,
accept iff the parse consumed exactly `len(chunk)` bytes and the field map
contains a field number ≤ 3; `IndexError`/`ValueError` are caught and
yield rejection. -/
def tryParseF : Nat → List Nat → Except PErr (Msg × Bool)
  | 0, _ => .error .fuelError
  | fuel + 1, chunk =>
      match msgLoopF fuel chunk chunk.length 0 [] with
      | .ok (message, consumed) =>
          if consumed = chunk.length ∧ hasSmallKey message then
            .ok (message, true)
          else
            .ok ([], false)
      | .error .fuelError => .error .fuelError
      | .error _ => .ok ([], false)
termination_by structural fuel _ => fuel

/-- Fueled loop of `_parse_group(buffer, pos, group_field)`: decode fields
until a matching END_GROUP key; the loop also ends silently when the
buffer is exhausted. -/
def groupF : Nat → List Nat → Nat → Nat → Msg → Except PErr (Msg × Nat)
  | 0, _, _, _, _ => .error .fuelError
  | fuel + 1, buffer, pos, groupField, fields =>
      if pos < buffer.length then
        match decode_varint buffer pos with
        | .error e => .error e
        | .ok (key, pos₁) =>
            let fieldNumber := key >>> 3
            let wireType := key &&& 7
            if wireType = 4 ∧ fieldNumber = groupField then
              .ok (fields, pos₁)
            else
              match valueF fuel buffer pos₁ wireType fieldNumber with
              | .error e => .error e
              | .ok (v, pos₂) =>
                  groupF fuel buffer pos₂ groupField (addField fields fieldNumber v)
      else
        .ok (fields, pos)
termination_by structural fuel _ _ _ _ => fuel

/-- Fueled `_parse_value(buffer, pos, wire_type, field_number)`. -/
def valueF : Nat → List Nat → Nat → Nat → Nat → Except PErr (Value × Nat)
  | 0, _, _, _, _ => .error .fuelError
  | fuel + 1, buffer, pos, wireType, fieldNumber =>
      if wireType = 0 then
        match decode_varint buffer pos with
        | .error e => .error e
        | .ok (v, pos₁) => .ok (.int v, pos₁)
      else if wireType = 1 then
        .ok (.int (fromBytesLE ((buffer.drop pos).take 8)), pos + 8)
      else if wireType = 2 then
        match decode_varint buffer pos with
        | .error e => .error e
        | .ok (length, pos₁) =>
            let chunk := (buffer.drop pos₁).take length
            match tryParseF fuel chunk with
            | .error e => .error e
            | .ok (nested, consumed) =>
                .ok ((if consumed then Value.msg nested else Value.bytes chunk), pos₁ + length)
      else if wireType = 3 then
        match groupF fuel buffer pos fieldNumber [] with
        | .error e => .error e
        | .ok (g, pos₁) => .ok (.msg g, pos₁)
      else if wireType = 5 then
        .ok (.int (fromBytesLE ((buffer.drop pos).take 4)), pos + 4)
      else
        .error .valueError
termination_by structural fuel _ _ _ _ => fuel

end

/-- Fuel sufficient for any parse over `buffer` (proved below). -/
def parseFuel (buffer : List Nat) : Nat :=
  2 * buffer.length + 2

/-- Source `_parse_message_internal(buffer, start, end)`. -/
def parse_message_internal (buffer : List Nat) (start end_ : Nat) :
    Except PErr (Msg × Nat) :=
  msgLoopF (parseFuel buffer) buffer end_ start []

/-- Source `_try_parse_message(chunk)`. -/
def try_parse_message (chunk : List Nat) : Msg × Bool :=
  match tryParseF (parseFuel chunk) chunk with
  | .ok r => r
  | .error _ => ([], false)

/-- Source `_parse_group(buffer, pos, group_field)`. -/
def parse_group (buffer : List Nat) (pos groupField : Nat) :
    Except PErr (Msg × Nat) :=
  groupF (parseFuel buffer) buffer pos groupField []

/-- Source `_parse_message(buffer)`: parse the whole buffer as one message,
catching `IndexError`/`ValueError` into an empty field map. -/
def parse_message (buffer : List Nat) : Msg :=
  match parse_message_internal buffer 0 buffer.length with
  | .ok (message, _) => message
  | .error _ => []

/-! ### Basic facts about the wire decoder -/

theorem decodeVarintGo_bounds :
    ∀ (l : List Nat) (shift result v n : Nat),
      decodeVarintGo l shift result = .ok (v, n) → 1 ≤ n ∧ n ≤ l.length := by
  intro l
  induction l with
  | nil => intro shift result v n h; simp [decodeVarintGo] at h
  | cons b rest ih =>
      intro shift result v n h
      simp only [decodeVarintGo] at h
      by_cases hb : b &&& 128 = 0
      · simp only [hb, if_true] at h
        simp only [Except.ok.injEq, Prod.mk.injEq] at h
        simp only [List.length_cons]
        omega
      · rw [if_neg hb] at h
        cases hgo : decodeVarintGo rest (shift + 7) (result ||| ((b &&& 127) <<< shift)) with
        | ok p =>
            obtain ⟨v', n'⟩ := p
            rw [hgo] at h
            simp only [Except.ok.injEq, Prod.mk.injEq] at h
            have hb2 := ih (shift + 7) (result ||| ((b &&& 127) <<< shift)) v' n' hgo
            simp only [List.length_cons]
            omega
        | error e => rw [hgo] at h; simp at h

theorem decode_varint_bounds {buffer : List Nat} {pos v p' : Nat}
    (h : decode_varint buffer pos = .ok (v, p')) :
    pos < p' ∧ p' ≤ buffer.length ∧ pos < buffer.length := by
  unfold decode_varint at h
  cases hgo : decodeVarintGo (buffer.drop pos) 0 0 with
  | ok p =>
      obtain ⟨v', n⟩ := p
      rw [hgo] at h
      simp only [Except.ok.injEq, Prod.mk.injEq] at h
      obtain ⟨hv, hp⟩ := h
      have hb := decodeVarintGo_bounds _ _ _ _ _ hgo
      rw [List.length_drop] at hb
      omega
  | error e => rw [hgo] at h; simp at h

/-- Position monotonicity of the fueled parsers: a successful parse never
moves the position backwards. -/
theorem parsePosMono :
    ∀ fuel : Nat,
      (∀ buffer end_ pos fields m p',
        msgLoopF fuel buffer end_ pos fields = .ok (m, p') → pos ≤ p') ∧
      (∀ buffer pos g fields m p',
        groupF fuel buffer pos g fields = .ok (m, p') → pos ≤ p') ∧
      (∀ buffer pos wt fn v p',
        valueF fuel buffer pos wt fn = .ok (v, p') → pos ≤ p') := by
  intro fuel
  induction fuel with
  | zero =>
      refine ⟨?_, ?_, ?_⟩ <;> intro buffer <;> intros <;> simp_all [msgLoopF, groupF, valueF]
  | succ fuel ih =>
      obtain ⟨ihM, ihG, ihV⟩ := ih
      refine ⟨?_, ?_, ?_⟩
      · intro buffer end_ pos fields m p' h
        rw [msgLoopF] at h
        by_cases hpos : pos < end_
        · simp only [hpos, if_true] at h
          cases hdv : decode_varint buffer pos with
          | error e => rw [hdv] at h; simp at h
          | ok kp =>
              obtain ⟨key, pos₁⟩ := kp
              rw [hdv] at h
              have hkb := decode_varint_bounds hdv
              simp only at h
              split at h
              · -- wireType = 0
                cases hdv2 : decode_varint buffer pos₁ with
                | error e => rw [hdv2] at h; simp at h
                | ok vp =>
                    obtain ⟨v, pos₂⟩ := vp
                    rw [hdv2] at h
                    have hkb2 := decode_varint_bounds hdv2
                    have := ihM _ _ _ _ _ _ h
                    omega
              · split at h
                · -- wireType = 1
                  have := ihM _ _ _ _ _ _ h
                  omega
                · split at h
                  · -- wireType = 2
                    cases hdv2 : decode_varint buffer pos₁ with
                    | error e => rw [hdv2] at h; simp at h
                    | ok lp =>
                        obtain ⟨length, pos₂⟩ := lp
                        rw [hdv2] at h
                        have hkb2 := decode_varint_bounds hdv2
                        simp only at h
                        split at h
                        · simp at h
                        · have := ihM _ _ _ _ _ _ h
                          omega
                  · split at h
                    · -- wireType = 3
                      cases hg : groupF fuel buffer pos₁ (key >>> 3) [] with
                      | error e => rw [hg] at h; simp at h
                      | ok gp =>
                          obtain ⟨g, pos₂⟩ := gp
                          rw [hg] at h
                          have hgm := ihG _ _ _ _ _ _ hg
                          have := ihM _ _ _ _ _ _ h
                          omega
                    · split at h
                      · simp at h
                      · split at h
                        · -- wireType = 5
                          have := ihM _ _ _ _ _ _ h
                          omega
                        · simp at h
        · simp only [hpos, if_false] at h
          simp only [Except.ok.injEq, Prod.mk.injEq] at h
          omega
      · intro buffer pos g fields m p' h
        rw [groupF] at h
        by_cases hpos : pos < buffer.length
        · simp only [hpos, if_true] at h
          cases hdv : decode_varint buffer pos with
          | error e => rw [hdv] at h; simp at h
          | ok kp =>
              obtain ⟨key, pos₁⟩ := kp
              rw [hdv] at h
              have hkb := decode_varint_bounds hdv
              simp only at h
              split at h
              · simp only [Except.ok.injEq, Prod.mk.injEq] at h
                omega
              · cases hv : valueF fuel buffer pos₁ (key &&& 7) (key >>> 3) with
                | error e => rw [hv] at h; simp at h
                | ok vp =>
                    obtain ⟨v, pos₂⟩ := vp
                    rw [hv] at h
                    have hvm := ihV _ _ _ _ _ _ hv
                    have := ihG _ _ _ _ _ _ h
                    omega
        · simp only [hpos, if_false] at h
          simp only [Except.ok.injEq, Prod.mk.injEq] at h
          omega
      · intro buffer pos wt fn v p' h
        rw [valueF] at h
        split at h
        · cases hdv : decode_varint buffer pos with
          | error e => rw [hdv] at h; simp at h
          | ok vp =>
              obtain ⟨v', pos₁⟩ := vp
              rw [hdv] at h
              have hkb := decode_varint_bounds hdv
              simp only [Except.ok.injEq, Prod.mk.injEq] at h
              omega
        · split at h
          · simp only [Except.ok.injEq, Prod.mk.injEq] at h
            omega
          · split at h
            · cases hdv : decode_varint buffer pos with
              | error e => rw [hdv] at h; simp at h
              | ok lp =>
                  obtain ⟨length, pos₁⟩ := lp
                  rw [hdv] at h
                  have hkb := decode_varint_bounds hdv
                  simp only at h
                  split at h
                  · simp at h
                  · simp only [Except.ok.injEq, Prod.mk.injEq] at h
                    omega
            · split at h
              · cases hg : groupF fuel buffer pos fn [] with
                | error e => rw [hg] at h; simp at h
                | ok gp =>
                    obtain ⟨g, pos₁⟩ := gp
                    rw [hg] at h
                    have hgm := ihG _ _ _ _ _ _ hg
                    simp only [Except.ok.injEq, Prod.mk.injEq] at h
                    omega
              · split at h
                · simp only [Except.ok.injEq, Prod.mk.injEq] at h
                  omega
                · simp at h

theorem decodeVarintGo_error :
    ∀ (l : List Nat) (shift result : Nat) (e : PErr),
      decodeVarintGo l shift result = .error e → e = .indexError := by
  intro l
  induction l with
  | nil => intro shift result e h; simp [decodeVarintGo] at h; exact h.symm
  | cons b rest ih =>
      intro shift result e h
      simp only [decodeVarintGo] at h
      by_cases hb : b &&& 128 = 0
      · rw [if_pos hb] at h; simp at h
      · rw [if_neg hb] at h
        cases hgo : decodeVarintGo rest (shift + 7) (result ||| ((b &&& 127) <<< shift)) with
        | ok p => obtain ⟨v', n'⟩ := p; rw [hgo] at h; simp at h
        | error e' =>
            rw [hgo] at h
            simp only [Except.error.injEq] at h
            subst h
            exact ih _ _ _ hgo

theorem decode_varint_error {buffer : List Nat} {pos : Nat} {e : PErr}
    (h : decode_varint buffer pos = .error e) : e = .indexError := by
  unfold decode_varint at h
  cases hgo : decodeVarintGo (buffer.drop pos) 0 0 with
  | ok p => obtain ⟨v, n⟩ := p; rw [hgo] at h; simp at h
  | error e' =>
      rw [hgo] at h
      simp only [Except.error.injEq] at h
      subst h
      exact decodeVarintGo_error _ _ _ _ hgo

theorem tryParseF_error {fuel : Nat} {chunk : List Nat} {e : PErr}
    (h : tryParseF fuel chunk = .error e) : e = .fuelError := by
  cases fuel with
  | zero => simp [tryParseF] at h; exact h.symm
  | succ fuel =>
      rw [tryParseF] at h
      cases hm : msgLoopF fuel chunk chunk.length 0 [] with
      | ok p =>
          obtain ⟨m, c⟩ := p
          rw [hm] at h
          simp only at h
          split at h <;> simp at h
      | error e' =>
          rw [hm] at h
          cases e' <;> simp_all

/-- Fuel sufficiency: with fuel at least twice the number of remaining
bytes (plus a constant), the fueled parsers never run out of fuel. -/
theorem parseSuff :
    ∀ fuel : Nat,
      (∀ buffer end_ pos fields,
        2 * (buffer.length - pos) + 1 ≤ fuel →
        msgLoopF fuel buffer end_ pos fields ≠ .error .fuelError) ∧
      (∀ chunk : List Nat,
        2 * chunk.length + 2 ≤ fuel →
        tryParseF fuel chunk ≠ .error .fuelError) ∧
      (∀ buffer pos g fields,
        2 * (buffer.length - pos) + 1 ≤ fuel →
        groupF fuel buffer pos g fields ≠ .error .fuelError) ∧
      (∀ buffer pos wt fn,
        2 * (buffer.length - pos) + 2 ≤ fuel →
        valueF fuel buffer pos wt fn ≠ .error .fuelError) := by
  intro fuel
  induction fuel with
  | zero => refine ⟨?_, ?_, ?_, ?_⟩ <;> intro buffer <;> intros <;> omega
  | succ fuel ih =>
      obtain ⟨ihM, ihT, ihG, ihV⟩ := ih
      refine ⟨?_, ?_, ?_, ?_⟩
      · intro buffer end_ pos fields hfuel
        rw [msgLoopF]
        by_cases hpos : pos < end_
        · rw [if_pos hpos]
          cases hdv : decode_varint buffer pos with
          | error e =>
              have := decode_varint_error hdv
              subst this
              simp
          | ok kp =>
              obtain ⟨key, pos₁⟩ := kp
              have hkb := decode_varint_bounds hdv
              simp only
              split
              · cases hdv2 : decode_varint buffer pos₁ with
                | error e =>
                    have := decode_varint_error hdv2
                    subst this
                    simp
                | ok vp =>
                    obtain ⟨v, pos₂⟩ := vp
                    have hkb2 := decode_varint_bounds hdv2
                    exact ihM _ _ _ _ (by omega)
              · split
                · exact ihM _ _ _ _ (by omega)
                · split
                  · cases hdv2 : decode_varint buffer pos₁ with
                    | error e =>
                        have := decode_varint_error hdv2
                        subst this
                        simp
                    | ok lp =>
                        obtain ⟨length, pos₂⟩ := lp
                        have hkb2 := decode_varint_bounds hdv2
                        simp only
                        have hchunk : ((buffer.drop pos₂).take length).length ≤
                            buffer.length - pos₂ := by
                          simp [List.length_take, List.length_drop]
                        cases htp : tryParseF fuel ((buffer.drop pos₂).take length) with
                        | error e =>
                            have he := tryParseF_error htp
                            subst he
                            exact absurd htp (ihT _ (by omega))
                        | ok nc =>
                            obtain ⟨nested, consumed⟩ := nc
                            exact ihM _ _ _ _ (by omega)
                  · split
                    · cases hg : groupF fuel buffer pos₁ (key >>> 3) [] with
                      | error e =>
                          intro hcontra
                          simp only [Except.error.injEq] at hcontra
                          subst hcontra
                          exact ihG _ _ _ _ (by omega) hg
                      | ok gp =>
                          obtain ⟨g, pos₂⟩ := gp
                          have hgm := (parsePosMono fuel).2.1 _ _ _ _ _ _ hg
                          exact ihM _ _ _ _ (by omega)
                    · split
                      · simp
                      · split
                        · exact ihM _ _ _ _ (by omega)
                        · simp
        · rw [if_neg hpos]
          simp
      · intro chunk hfuel
        rw [tryParseF]
        cases hm : msgLoopF fuel chunk chunk.length 0 [] with
        | ok p =>
            obtain ⟨m, c⟩ := p
            simp only
            split <;> simp
        | error e =>
            cases e with
            | fuelError => exact absurd hm (ihM _ _ _ _ (by omega))
            | indexError => simp
            | valueError => simp
      · intro buffer pos g fields hfuel
        rw [groupF]
        by_cases hpos : pos < buffer.length
        · rw [if_pos hpos]
          cases hdv : decode_varint buffer pos with
          | error e =>
              have := decode_varint_error hdv
              subst this
              simp
          | ok kp =>
              obtain ⟨key, pos₁⟩ := kp
              have hkb := decode_varint_bounds hdv
              simp only
              split
              · simp
              · cases hv : valueF fuel buffer pos₁ (key &&& 7) (key >>> 3) with
                | error e =>
                    intro hcontra
                    simp only [Except.error.injEq] at hcontra
                    subst hcontra
                    exact ihV _ _ _ _ (by omega) hv
                | ok vp =>
                    obtain ⟨v, pos₂⟩ := vp
                    have hvm := (parsePosMono fuel).2.2 _ _ _ _ _ _ hv
                    exact ihG _ _ _ _ (by omega)
        · rw [if_neg hpos]
          simp
      · intro buffer pos wt fn hfuel
        rw [valueF]
        split
        · cases hdv : decode_varint buffer pos with
          | error e =>
              have := decode_varint_error hdv
              subst this
              simp
          | ok vp => obtain ⟨v, pos₁⟩ := vp; simp
        · split
          · simp
          · split
            · cases hdv : decode_varint buffer pos with
              | error e =>
                  have := decode_varint_error hdv
                  subst this
                  simp
              | ok lp =>
                  obtain ⟨length, pos₁⟩ := lp
                  have hkb := decode_varint_bounds hdv
                  simp only
                  have hchunk : ((buffer.drop pos₁).take length).length ≤
                      buffer.length - pos₁ := by
                    simp [List.length_take, List.length_drop]
                  cases htp : tryParseF fuel ((buffer.drop pos₁).take length) with
                  | error e =>
                      have he := tryParseF_error htp
                      subst he
                      exact absurd htp (ihT _ (by omega))
                  | ok nc => obtain ⟨nested, consumed⟩ := nc; simp
            · split
              · cases hg : groupF fuel buffer pos fn [] with
                | error e =>
                    intro hcontra
                    simp only [Except.error.injEq] at hcontra
                    subst hcontra
                    exact ihG _ _ _ _ (by omega) hg
                | ok gp => obtain ⟨g, pos₁⟩ := gp; simp
              · split
                · simp
                · simp

/-- Fuel monotonicity: any result other than fuel exhaustion is stable
under increasing fuel. -/
theorem parseMono :
    ∀ fuel : Nat,
      (∀ buffer end_ pos fields r,
        msgLoopF fuel buffer end_ pos fields = r → r ≠ .error .fuelError →
        msgLoopF (fuel + 1) buffer end_ pos fields = r) ∧
      (∀ (chunk : List Nat) r,
        tryParseF fuel chunk = r → r ≠ .error .fuelError →
        tryParseF (fuel + 1) chunk = r) ∧
      (∀ buffer pos g fields r,
        groupF fuel buffer pos g fields = r → r ≠ .error .fuelError →
        groupF (fuel + 1) buffer pos g fields = r) ∧
      (∀ buffer pos wt fn r,
        valueF fuel buffer pos wt fn = r → r ≠ .error .fuelError →
        valueF (fuel + 1) buffer pos wt fn = r) := by
  intro fuel
  induction fuel with
  | zero =>
      refine ⟨?_, ?_, ?_, ?_⟩ <;> intro a <;> intros <;>
        simp_all [msgLoopF, tryParseF, groupF, valueF]
  | succ fuel ih =>
      obtain ⟨ihM, ihT, ihG, ihV⟩ := ih
      refine ⟨?_, ?_, ?_, ?_⟩
      · intro buffer end_ pos fields r h hne
        rw [msgLoopF] at h
        rw [msgLoopF]
        by_cases hpos : pos < end_
        · rw [if_pos hpos] at h ⊢
          cases hdv : decode_varint buffer pos with
          | error e => rw [hdv] at h; exact h
          | ok kp =>
              obtain ⟨key, pos₁⟩ := kp
              rw [hdv] at h
              simp only at h ⊢
              by_cases hw0 : key &&& 7 = 0
              · rw [if_pos hw0] at h ⊢
                cases hdv2 : decode_varint buffer pos₁ with
                | error e => rw [hdv2] at h; exact h
                | ok vp =>
                    obtain ⟨v, pos₂⟩ := vp
                    rw [hdv2] at h
                    exact ihM _ _ _ _ _ h hne
              · rw [if_neg hw0] at h ⊢
                by_cases hw1 : key &&& 7 = 1
                · rw [if_pos hw1] at h ⊢
                  exact ihM _ _ _ _ _ h hne
                · rw [if_neg hw1] at h ⊢
                  by_cases hw2 : key &&& 7 = 2
                  · rw [if_pos hw2] at h ⊢
                    cases hdv2 : decode_varint buffer pos₁ with
                    | error e => rw [hdv2] at h; exact h
                    | ok lp =>
                        obtain ⟨length, pos₂⟩ := lp
                        rw [hdv2] at h
                        simp only at h ⊢
                        cases htp : tryParseF fuel ((buffer.drop pos₂).take length) with
                        | error e =>
                            have he := tryParseF_error htp
                            subst he
                            rw [htp] at h
                            simp only at h
                            exact (hne h.symm).elim
                        | ok nc =>
                            obtain ⟨nested, consumed⟩ := nc
                            rw [htp] at h
                            rw [ihT _ _ htp (by simp)]
                            simp only at h ⊢
                            exact ihM _ _ _ _ _ h hne
                  · rw [if_neg hw2] at h ⊢
                    by_cases hw3 : key &&& 7 = 3
                    · rw [if_pos hw3] at h ⊢
                      cases hg : groupF fuel buffer pos₁ (key >>> 3) [] with
                      | error e =>
                          rw [hg] at h
                          simp only at h
                          by_cases hef : e = .fuelError
                          · subst hef
                            exact (hne h.symm).elim
                          · rw [ihG _ _ _ _ _ hg (by simpa using hef)]
                            exact h
                      | ok gp =>
                          obtain ⟨g, pos₂⟩ := gp
                          rw [hg] at h
                          rw [ihG _ _ _ _ _ hg (by simp)]
                          exact ihM _ _ _ _ _ h hne
                    · rw [if_neg hw3] at h ⊢
                      by_cases hw4 : key &&& 7 = 4
                      · rw [if_pos hw4] at h ⊢
                        exact h
                      · rw [if_neg hw4] at h ⊢
                        by_cases hw5 : key &&& 7 = 5
                        · rw [if_pos hw5] at h ⊢
                          exact ihM _ _ _ _ _ h hne
                        · rw [if_neg hw5] at h ⊢
                          exact h
        · rw [if_neg hpos] at h ⊢
          exact h
      · intro chunk r h hne
        rw [tryParseF] at h
        rw [tryParseF]
        cases hm : msgLoopF fuel chunk chunk.length 0 [] with
        | ok p =>
            obtain ⟨m, c⟩ := p
            rw [hm] at h
            rw [ihM _ _ _ _ _ hm (by simp)]
            exact h
        | error e =>
            rw [hm] at h
            cases e with
            | fuelError =>
                simp only at h
                exact (hne h.symm).elim
            | indexError =>
                rw [ihM _ _ _ _ _ hm (by simp)]
                exact h
            | valueError =>
                rw [ihM _ _ _ _ _ hm (by simp)]
                exact h
      · intro buffer pos g fields r h hne
        rw [groupF] at h
        rw [groupF]
        by_cases hpos : pos < buffer.length
        · rw [if_pos hpos] at h ⊢
          cases hdv : decode_varint buffer pos with
          | error e => rw [hdv] at h; exact h
          | ok kp =>
              obtain ⟨key, pos₁⟩ := kp
              rw [hdv] at h
              simp only at h ⊢
              by_cases hend : key &&& 7 = 4 ∧ key >>> 3 = g
              · rw [if_pos hend] at h ⊢
                exact h
              · rw [if_neg hend] at h ⊢
                cases hv : valueF fuel buffer pos₁ (key &&& 7) (key >>> 3) with
                | error e =>
                    rw [hv] at h
                    simp only at h
                    by_cases hef : e = .fuelError
                    · subst hef
                      exact (hne h.symm).elim
                    · rw [ihV _ _ _ _ _ hv (by simpa using hef)]
                      exact h
                | ok vp =>
                    obtain ⟨v, pos₂⟩ := vp
                    rw [hv] at h
                    rw [ihV _ _ _ _ _ hv (by simp)]
                    exact ihG _ _ _ _ _ h hne
        · rw [if_neg hpos] at h ⊢
          exact h
      · intro buffer pos wt fn r h hne
        rw [valueF] at h
        rw [valueF]
        by_cases hw0 : wt = 0
        · rw [if_pos hw0] at h ⊢
          exact h
        · rw [if_neg hw0] at h ⊢
          by_cases hw1 : wt = 1
          · rw [if_pos hw1] at h ⊢
            exact h
          · rw [if_neg hw1] at h ⊢
            by_cases hw2 : wt = 2
            · rw [if_pos hw2] at h ⊢
              cases hdv : decode_varint buffer pos with
              | error e => rw [hdv] at h; exact h
              | ok lp =>
                  obtain ⟨length, pos₁⟩ := lp
                  rw [hdv] at h
                  simp only at h ⊢
                  cases htp : tryParseF fuel ((buffer.drop pos₁).take length) with
                  | error e =>
                      have he := tryParseF_error htp
                      subst he
                      rw [htp] at h
                      simp only at h
                      exact (hne h.symm).elim
                  | ok nc =>
                      obtain ⟨nested, consumed⟩ := nc
                      rw [htp] at h
                      rw [ihT _ _ htp (by simp)]
                      exact h
            · rw [if_neg hw2] at h ⊢
              by_cases hw3 : wt = 3
              · rw [if_pos hw3] at h ⊢
                cases hg : groupF fuel buffer pos fn [] with
                | error e =>
                    rw [hg] at h
                    simp only at h
                    by_cases hef : e = .fuelError
                    · subst hef
                      exact (hne h.symm).elim
                    · rw [ihG _ _ _ _ _ hg (by simpa using hef)]
                      exact h
                | ok gp =>
                    obtain ⟨g, pos₁⟩ := gp
                    rw [hg] at h
                    rw [ihG _ _ _ _ _ hg (by simp)]
                    exact h
              · rw [if_neg hw3] at h ⊢
                by_cases hw5 : wt = 5
                · rw [if_pos hw5] at h ⊢
                  exact h
                · rw [if_neg hw5] at h ⊢
                  exact h

/-- Any two sufficient fuels give the same message parse. -/
theorem msgLoopF_stable {buffer : List Nat} {end_ pos : Nat} {fields : Msg}
    {f₁ f₂ : Nat} (hf : 2 * (buffer.length - pos) + 1 ≤ f₁) (hle : f₁ ≤ f₂) :
    msgLoopF f₂ buffer end_ pos fields = msgLoopF f₁ buffer end_ pos fields := by
  induction f₂, hle using Nat.le_induction with
  | base => rfl
  | succ f₂ hle ih =>
      rw [← ih]
      refine (parseMono f₂).1 _ _ _ _ _ rfl ?_
      rw [ih]
      exact (parseSuff f₁).1 _ _ _ _ hf

/-- Any two sufficient fuels give the same nested-chunk probe. -/
theorem tryParseF_stable {chunk : List Nat} {f₁ f₂ : Nat}
    (hf : 2 * chunk.length + 2 ≤ f₁) (hle : f₁ ≤ f₂) :
    tryParseF f₂ chunk = tryParseF f₁ chunk := by
  induction f₂, hle using Nat.le_induction with
  | base => rfl
  | succ f₂ hle ih =>
      rw [← ih]
      refine (parseMono f₂).2.1 _ _ rfl ?_
      rw [ih]
      exact (parseSuff f₁).2.1 _ hf

/-- The fueled probe at wrapper fuel never runs out of fuel, so the
total wrapper `try_parse_message` describes it exactly. -/
theorem try_parse_message_eq (chunk : List Nat) :
    tryParseF (parseFuel chunk) chunk = .ok (try_parse_message chunk) := by
  unfold try_parse_message
  cases htp : tryParseF (parseFuel chunk) chunk with
  | ok r => rfl
  | error e =>
      have he := tryParseF_error htp
      subst he
      exact absurd htp ((parseSuff (parseFuel chunk)).2.1 _ (by simp [parseFuel]))

theorem parse_message_internal_eq (buffer : List Nat) (pos end_ : Nat) :
    parse_message_internal buffer pos end_ =
      msgLoopF (2 * buffer.length + 1) buffer end_ pos [] := by
  unfold parse_message_internal parseFuel
  exact msgLoopF_stable (by omega) (by omega)

/-! ### Claim C1: the nested-message heuristic -/

/-- Claim C1: For every byte chunk read from a LENGTH_DELIMITED field, the
wire decoder stores the chunk as a nested `DecodedMessage` if and only if
recursively decoding the chunk consumes exactly `len(chunk)` bytes with no
parse error and the resulting field map contains at least one field number
≤ 3; otherwise the chunk is stored as the raw byte string.  Part one
characterises the acceptance test of `_try_parse_message`; part two shows
that, at a LENGTH_DELIMITED field, the message loop stores exactly the
value selected by that test (nested message when accepted, raw bytes
otherwise) and continues after the declared span. -/
theorem c1_nested_message_heuristic :
    (∀ (chunk : List Nat) (m : Msg),
       try_parse_message chunk = (m, true) ↔
         (parse_message_internal chunk 0 chunk.length = .ok (m, chunk.length) ∧
          hasSmallKey m = true)) ∧
    (∀ (buffer : List Nat) (end_ pos key pos₁ length pos₂ : Nat),
       pos < end_ →
       decode_varint buffer pos = .ok (key, pos₁) →
       key &&& 7 = 2 →
       decode_varint buffer pos₁ = .ok (length, pos₂) →
       parse_message_internal buffer pos end_ =
         msgLoopF (2 * buffer.length) buffer end_ (pos₂ + length)
           (addField [] (key >>> 3)
             (if (try_parse_message ((buffer.drop pos₂).take length)).2 then
               Value.msg (try_parse_message ((buffer.drop pos₂).take length)).1
              else
               Value.bytes ((buffer.drop pos₂).take length)))) := by
  constructor
  · intro chunk m
    have heq := try_parse_message_eq chunk
    rw [show parseFuel chunk = (2 * chunk.length + 1) + 1 from by
          simp [parseFuel]] at heq
    rw [tryParseF] at heq
    have hpm : parse_message_internal chunk 0 chunk.length =
        msgLoopF (2 * chunk.length + 1) chunk chunk.length 0 [] :=
      parse_message_internal_eq chunk 0 chunk.length
    cases hm : msgLoopF (2 * chunk.length + 1) chunk chunk.length 0 [] with
    | ok p =>
        obtain ⟨m', c'⟩ := p
        rw [hm] at heq
        simp only at heq
        constructor
        · intro h
          rw [h] at heq
          by_cases hcond : c' = chunk.length ∧ hasSmallKey m'
          · rw [if_pos hcond] at heq
            simp only [Except.ok.injEq, Prod.mk.injEq] at heq
            obtain ⟨hm', _⟩ := heq
            subst hm'
            rw [hpm, hm]
            exact ⟨by rw [hcond.1], hcond.2⟩
          · rw [if_neg hcond] at heq
            simp at heq
        · intro ⟨hp, hsmall⟩
          rw [hpm, hm] at hp
          simp only [Except.ok.injEq, Prod.mk.injEq] at hp
          obtain ⟨hm', hc'⟩ := hp
          subst hm'
          subst hc'
          rw [if_pos ⟨rfl, hsmall⟩] at heq
          simp only [Except.ok.injEq] at heq
          exact heq.symm
    | error e =>
        rw [hm] at heq
        have hef : e ≠ .fuelError := by
          intro hcontra
          subst hcontra
          exact (parseSuff (2 * chunk.length + 1)).1 _ _ _ _ (by omega) hm
        constructor
        · intro h
          rw [h] at heq
          cases e <;> simp_all
        · intro ⟨hp, _⟩
          rw [hpm, hm] at hp
          simp at hp
  · intro buffer end_ pos key pos₁ length pos₂ hpos hkey hwt hlen
    have hkb := decode_varint_bounds hkey
    have hlb := decode_varint_bounds hlen
    rw [parse_message_internal_eq]
    rw [show 2 * buffer.length + 1 = (2 * buffer.length) + 1 from rfl, msgLoopF]
    rw [if_pos hpos, hkey]
    simp only
    rw [if_neg (by omega), if_neg (by omega), if_pos hwt, hlen]
    simp only
    have hc : 2 * ((buffer.drop pos₂).take length).length + 2 ≤ 2 * buffer.length := by
      simp only [List.length_take, List.length_drop]
      omega
    rw [@tryParseF_stable ((buffer.drop pos₂).take length)
          (parseFuel ((buffer.drop pos₂).take length)) (2 * buffer.length)
          (by simp [parseFuel]) (by simp [parseFuel]; omega)]
    rw [try_parse_message_eq]

/-- Witness for C1: a concrete LENGTH_DELIMITED field whose chunk `[8, 5]`
parses fully as `{1: [5]}` and is accepted as a nested message. -/
theorem c1_witness :
    ((0 : Nat) < 4 ∧
      decode_varint [10, 2, 8, 5] 0 = .ok (10, 1) ∧
      (10 : Nat) &&& 7 = 2 ∧
      decode_varint [10, 2, 8, 5] 1 = .ok (2, 2)) ∧
    parse_message_internal [10, 2, 8, 5] 0 4 =
      msgLoopF 8 [10, 2, 8, 5] 4 4
        (addField [] 1
          (if (try_parse_message [8, 5]).2 then
            Value.msg (try_parse_message [8, 5]).1
           else Value.bytes [8, 5])) :=
  ⟨⟨by decide, by rfl, by decide, by rfl⟩,
   c1_nested_message_heuristic.2 [10, 2, 8, 5] 4 0 10 1 2 2
     (by decide) (by rfl) (by decide) (by rfl)⟩

/-! ### Claim C8: group framing errors -/

/-- Claim C8 (amended): A mismatched END_GROUP marker inside a group is a
parse error, and an END_GROUP marker at message level (outside any group)
is a parse error; but a group whose matching END_GROUP never appears
before the buffer ends is *not* an error — the group parse ends silently
at the end of the buffer with the fields collected so far. -/
theorem c8_group_framing :
    (∀ (buffer : List Nat) (pos g key pos₁ : Nat),
       pos < buffer.length →
       decode_varint buffer pos = .ok (key, pos₁) →
       key &&& 7 = 4 → key >>> 3 ≠ g →
       parse_group buffer pos g = .error .valueError) ∧
    (∀ (buffer : List Nat) (end_ pos key pos₁ : Nat),
       pos < end_ →
       decode_varint buffer pos = .ok (key, pos₁) →
       key &&& 7 = 4 →
       parse_message_internal buffer pos end_ = .error .valueError) ∧
    (∀ (buffer : List Nat) (pos g : Nat),
       buffer.length ≤ pos →
       parse_group buffer pos g = .ok ([], pos)) := by
  refine ⟨?_, ?_, ?_⟩
  · intro buffer pos g key pos₁ hpos hkey hwt hne
    unfold parse_group
    rw [show parseFuel buffer = (2 * buffer.length + 1) + 1 from by simp [parseFuel]]
    rw [groupF, if_pos hpos, hkey]
    simp only
    rw [if_neg (fun hc => hne hc.2)]
    rw [show 2 * buffer.length + 1 = (2 * buffer.length) + 1 from rfl, valueF]
    rw [if_neg (by omega), if_neg (by omega), if_neg (by omega),
        if_neg (by omega), if_neg (by omega)]
  · intro buffer end_ pos key pos₁ hpos hkey hwt
    rw [parse_message_internal_eq]
    rw [show 2 * buffer.length + 1 = (2 * buffer.length) + 1 from rfl, msgLoopF]
    rw [if_pos hpos, hkey]
    simp only
    rw [if_neg (by omega), if_neg (by omega), if_neg (by omega),
        if_neg (by omega), if_pos hwt]
  · intro buffer pos g hpos
    unfold parse_group
    rw [show parseFuel buffer = (2 * buffer.length + 1) + 1 from by simp [parseFuel]]
    rw [groupF, if_neg (by omega)]

/-- Witness for C8: concrete instances of all three parts.  Buffer
`[12, 20]` starts a group on field 1 (`key = 12`, wire type 4... ) — see
each conjunct: `[36]` is a mismatched END_GROUP (field 4) inside a group
over field 1; `[44]` is an END_GROUP key at message level; and the empty
suffix ends a group silently. -/
theorem c8_witness :
    ((0 : Nat) < 1 ∧ decode_varint [36] 0 = .ok (36, 1) ∧
      (36 : Nat) &&& 7 = 4 ∧ (36 : Nat) >>> 3 ≠ 1 ∧
      parse_group [36] 0 1 = .error .valueError) ∧
    ((0 : Nat) < 1 ∧ decode_varint [44] 0 = .ok (44, 1) ∧ (44 : Nat) &&& 7 = 4 ∧
      parse_message_internal [44] 0 1 = .error .valueError) ∧
    (([] : List Nat).length ≤ 0 ∧ parse_group [] 0 1 = .ok ([], 0)) :=
  ⟨⟨by decide, by rfl, by decide, by decide,
    c8_group_framing.1 [36] 0 1 36 1 (by decide) (by rfl) (by decide) (by decide)⟩,
   ⟨by decide, by rfl, by decide,
    c8_group_framing.2.1 [44] 1 0 44 1 (by decide) (by rfl) (by decide)⟩,
   ⟨by decide,
    c8_group_framing.2.2 [] 0 1 (by decide)⟩⟩

/-- Counterexample for C8 as stated: the buffer `[11]` opens a group
(field 1, wire type 3) that is never closed by a matching END_GROUP, yet
decoding it is *no* parse error: it returns the group decoded so far. -/
theorem c8_counterexample :
    parse_message_internal [11] 0 1 = .ok ([(1, [Value.msg []])], 1) := by rfl

/-! ### Claim C10: truncated fixed-width and length-delimited fields -/

/-- Claim C10: When a 64BIT or 32BIT field has fewer than 8 (resp. 4) bytes
remaining, or a LENGTH_DELIMITED field declares a length exceeding the
remaining bytes of its span, the wire decoder does not treat the
truncation as an error: it interprets only the bytes actually available
(the short slice) as the field's value, advances the position past the end
of the span, and returns the fields decoded so far. -/
theorem c10_truncated_fields :
    (∀ (buffer : List Nat) (end_ pos key pos₁ : Nat),
       pos < end_ → end_ ≤ buffer.length →
       decode_varint buffer pos = .ok (key, pos₁) →
       key &&& 7 = 1 → buffer.length < pos₁ + 8 →
       parse_message_internal buffer pos end_ =
         .ok (addField [] (key >>> 3)
               (.int (fromBytesLE (buffer.drop pos₁))), pos₁ + 8)) ∧
    (∀ (buffer : List Nat) (end_ pos key pos₁ : Nat),
       pos < end_ → end_ ≤ buffer.length →
       decode_varint buffer pos = .ok (key, pos₁) →
       key &&& 7 = 5 → buffer.length < pos₁ + 4 →
       parse_message_internal buffer pos end_ =
         .ok (addField [] (key >>> 3)
               (.int (fromBytesLE (buffer.drop pos₁))), pos₁ + 4)) ∧
    (∀ (buffer : List Nat) (end_ pos key pos₁ length pos₂ : Nat),
       pos < end_ → end_ ≤ buffer.length →
       decode_varint buffer pos = .ok (key, pos₁) →
       key &&& 7 = 2 →
       decode_varint buffer pos₁ = .ok (length, pos₂) →
       buffer.length < pos₂ + length →
       parse_message_internal buffer pos end_ =
         .ok (addField [] (key >>> 3)
               (if (try_parse_message (buffer.drop pos₂)).2 then
                  Value.msg (try_parse_message (buffer.drop pos₂)).1
                else Value.bytes (buffer.drop pos₂)), pos₂ + length)) := by
  refine ⟨?_, ?_, ?_⟩
  · intro buffer end_ pos key pos₁ hpos hend hkey hwt htr
    have hkb := decode_varint_bounds hkey
    have htake : (buffer.drop pos₁).take 8 = buffer.drop pos₁ :=
      List.take_of_length_le (by simp [List.length_drop]; omega)
    rw [parse_message_internal_eq]
    rw [show 2 * buffer.length + 1 = (2 * buffer.length) + 1 from rfl, msgLoopF]
    rw [if_pos hpos, hkey]
    simp only
    rw [if_neg (by omega), if_pos hwt, htake]
    rw [show 2 * buffer.length = (2 * buffer.length - 1) + 1 from by omega, msgLoopF]
    rw [if_neg (by omega)]
  · intro buffer end_ pos key pos₁ hpos hend hkey hwt htr
    have hkb := decode_varint_bounds hkey
    have htake : (buffer.drop pos₁).take 4 = buffer.drop pos₁ :=
      List.take_of_length_le (by simp [List.length_drop]; omega)
    rw [parse_message_internal_eq]
    rw [show 2 * buffer.length + 1 = (2 * buffer.length) + 1 from rfl, msgLoopF]
    rw [if_pos hpos, hkey]
    simp only
    rw [if_neg (by omega), if_neg (by omega), if_neg (by omega), if_neg (by omega),
        if_neg (by omega), if_pos hwt, htake]
    rw [show 2 * buffer.length = (2 * buffer.length - 1) + 1 from by omega, msgLoopF]
    rw [if_neg (by omega)]
  · intro buffer end_ pos key pos₁ length pos₂ hpos hend hkey hwt hlen htr
    have hkb := decode_varint_bounds hkey
    have hlb := decode_varint_bounds hlen
    have htake : (buffer.drop pos₂).take length = buffer.drop pos₂ :=
      List.take_of_length_le (by simp [List.length_drop]; omega)
    rw [parse_message_internal_eq]
    rw [show 2 * buffer.length + 1 = (2 * buffer.length) + 1 from rfl, msgLoopF]
    rw [if_pos hpos, hkey]
    simp only
    rw [if_neg (by omega), if_neg (by omega), if_pos hwt, hlen]
    simp only
    rw [htake]
    rw [@tryParseF_stable (buffer.drop pos₂) (parseFuel (buffer.drop pos₂))
          (2 * buffer.length)
          (by simp [parseFuel]) (by simp [parseFuel, List.length_drop]; omega)]
    rw [try_parse_message_eq]
    simp only
    rw [show 2 * buffer.length = (2 * buffer.length - 1) + 1 from by omega, msgLoopF]
    rw [if_neg (by omega)]

/-- Witness for C10: a truncated 64BIT field (`[9, 1, 2]`: two bytes
left), a truncated 32BIT field (`[13, 7]`: one byte left), and a
LENGTH_DELIMITED field declaring five bytes with one available
(`[10, 5, 8]`). -/
theorem c10_witness :
    (((0 : Nat) < 3 ∧ (3 : Nat) ≤ 3 ∧ decode_varint [9, 1, 2] 0 = .ok (9, 1) ∧
       (9 : Nat) &&& 7 = 1 ∧ (3 : Nat) < 1 + 8) ∧
      parse_message_internal [9, 1, 2] 0 3 = .ok ([(1, [Value.int 513])], 9)) ∧
    (((0 : Nat) < 2 ∧ (2 : Nat) ≤ 2 ∧ decode_varint [13, 7] 0 = .ok (13, 1) ∧
       (13 : Nat) &&& 7 = 5 ∧ (2 : Nat) < 1 + 4) ∧
      parse_message_internal [13, 7] 0 2 = .ok ([(1, [Value.int 7])], 5)) ∧
    (((0 : Nat) < 3 ∧ (3 : Nat) ≤ 3 ∧ decode_varint [10, 5, 8] 0 = .ok (10, 1) ∧
       (10 : Nat) &&& 7 = 2 ∧ decode_varint [10, 5, 8] 1 = .ok (5, 2) ∧
       (3 : Nat) < 2 + 5) ∧
      parse_message_internal [10, 5, 8] 0 3 = .ok ([(1, [Value.bytes [8]])], 7)) :=
  ⟨⟨⟨by decide, by decide, by rfl, by decide, by decide⟩,
    c10_truncated_fields.1 [9, 1, 2] 3 0 9 1
      (by decide) (by decide) (by rfl) (by decide) (by decide)⟩,
   ⟨⟨by decide, by decide, by rfl, by decide, by decide⟩,
    c10_truncated_fields.2.1 [13, 7] 2 0 13 1
      (by decide) (by decide) (by rfl) (by decide) (by decide)⟩,
   ⟨⟨by decide, by decide, by rfl, by decide, by rfl, by decide⟩,
    c10_truncated_fields.2.2 [10, 5, 8] 3 0 10 1 5 2
      (by decide) (by decide) (by rfl) (by decide) (by rfl) (by decide)⟩⟩

/-! ### The value coercer `_decode_string`

Python `str` results are modelled by their UTF-8 byte sequences.  A decoded
code point in the surrogate range (possible through `chr`) is encoded by
the natural extension of the UTF-8 scheme. -/

/-- Loop of `int.bit_length()` (fuel `v` suffices: halving `v` reaches 0
in at most `v` steps). -/
def bitLenGo : Nat → Nat → Nat
  | 0, _ => 0
  | fuel + 1, v => if v = 0 then 0 else bitLenGo fuel (v / 2) + 1

/-- Source `v.bit_length()`. -/
def bitLength (v : Nat) : Nat :=
  bitLenGo v v

/-- Source `v.to_bytes(len, "little")`. -/
def toBytesLE : Nat → Nat → List Nat
  | _, 0 => []
  | v, len + 1 => v % 256 :: toBytesLE (v / 256) len

/-- The UTF-8 byte sequence of the single character `chr(c)`. -/
def utf8EncodeChar (c : Nat) : List Nat :=
  if c < 128 then [c]
  else if c < 2048 then [192 + c / 64, 128 + c % 64]
  else if c < 65536 then [224 + c / 4096, 128 + c / 64 % 64, 128 + c % 64]
  else [240 + c / 262144, 128 + c / 4096 % 64, 128 + c / 64 % 64, 128 + c % 64]

/-- UTF-8 continuation byte (`0x80–0xBF`). -/
def utf8Cont (b : Nat) : Bool :=
  decide (128 ≤ b ∧ b < 192)

/-- Allowed range of the first continuation byte after a three-byte lead
(excludes overlong encodings and surrogates, as CPython's decoder does). -/
def utf8ContRange3 (b c1 : Nat) : Bool :=
  if b = 224 then decide (160 ≤ c1 ∧ c1 < 192)
  else if b = 237 then decide (128 ≤ c1 ∧ c1 < 160)
  else utf8Cont c1

/-- Allowed range of the first continuation byte after a four-byte lead. -/
def utf8ContRange4 (b c1 : Nat) : Bool :=
  if b = 240 then decide (144 ≤ c1 ∧ c1 < 192)
  else if b = 244 then decide (128 ≤ c1 ∧ c1 < 144)
  else utf8Cont c1

/-- UTF-8 encoding of U+FFFD REPLACEMENT CHARACTER. -/
def utf8ReplacementChar : List Nat :=
  [239, 191, 189]

/-- Loop of `bytes.decode("utf-8", errors="replace")` (CPython semantics:
one replacement character per maximal subpart of an ill-formed sequence;
a truncated but so-far-valid sequence at the end of input yields a single
replacement).  Valid sequences pass through unchanged; the result is the
UTF-8 byte string of the decoded text.  Fuel = input length suffices:
every step consumes at least one byte. -/
def utf8ReplaceGo : Nat → List Nat → List Nat
  | 0, _ => []
  | _ + 1, [] => []
  | fuel + 1, b :: rest =>
      if b < 128 then b :: utf8ReplaceGo fuel rest
      else if b < 194 then utf8ReplacementChar ++ utf8ReplaceGo fuel rest
      else if b < 224 then
        match rest with
        | [] => utf8ReplacementChar
        | c1 :: rest1 =>
            if utf8Cont c1 then b :: c1 :: utf8ReplaceGo fuel rest1
            else utf8ReplacementChar ++ utf8ReplaceGo fuel rest
      else if b < 240 then
        match rest with
        | [] => utf8ReplacementChar
        | c1 :: rest1 =>
            if utf8ContRange3 b c1 then
              match rest1 with
              | [] => utf8ReplacementChar
              | c2 :: rest2 =>
                  if utf8Cont c2 then b :: c1 :: c2 :: utf8ReplaceGo fuel rest2
                  else utf8ReplacementChar ++ utf8ReplaceGo fuel rest1
            else utf8ReplacementChar ++ utf8ReplaceGo fuel rest
      else if b < 245 then
        match rest with
        | [] => utf8ReplacementChar
        | c1 :: rest1 =>
            if utf8ContRange4 b c1 then
              match rest1 with
              | [] => utf8ReplacementChar
              | c2 :: rest2 =>
                  if utf8Cont c2 then
                    match rest2 with
                    | [] => utf8ReplacementChar
                    | c3 :: rest3 =>
                        if utf8Cont c3 then b :: c1 :: c2 :: c3 :: utf8ReplaceGo fuel rest3
                        else utf8ReplacementChar ++ utf8ReplaceGo fuel rest2
                  else utf8ReplacementChar ++ utf8ReplaceGo fuel rest1
            else utf8ReplacementChar ++ utf8ReplaceGo fuel rest
      else utf8ReplacementChar ++ utf8ReplaceGo fuel rest

/-- Source `bytes.decode("utf-8", errors="replace")`. -/
def utf8DecodeReplace (bs : List Nat) : List Nat :=
  utf8ReplaceGo bs.length bs

/-- Source `str.strip("\x00")`: removes NUL characters from *both* ends. -/
def pyStripNulBoth (bs : List Nat) : List Nat :=
  (((bs.dropWhile (fun b => b == 0)).reverse).dropWhile (fun b => b == 0)).reverse

mutual

/-- Source `_decode_string(value)` on a single decoded value.  The `str` branch
of the source is unreachable here: the wire decoder only produces
integers, byte strings and nested messages. -/
def decode_string : Value → List Nat
  | .msg fields => decodeStringFields fields
  | .bytes bs => utf8DecodeReplace bs
  | .int v =>
      if v ≤ 0x10FFFF then
        utf8EncodeChar v
      else
        pyStripNulBoth (utf8DecodeReplace
          (toBytesLE v (max 1 ((bitLength v + 7) / 8))))
termination_by structural v => v

/-- Source `_decode_string` on a list: concatenate the decoding of each entry. -/
def decodeStringList : List Value → List Nat
  | [] => []
  | v :: rest => decode_string v ++ decodeStringList rest
termination_by structural l => l

/-- Source `_decode_string` on a field dictionary: concatenate the decoding of
every entry of every field, in field insertion order. -/
def decodeStringFields : List (Nat × List Value) → List Nat
  | [] => []
  | (_, vs) :: rest => decodeStringList vs ++ decodeStringFields rest
termination_by structural l => l

end

/-! ### Claim C5: integer-to-string coercion -/

/-- Claim C5 (amended): For every integer value `v` given to the string
coercer: if `0 ≤ v ≤ 0x10FFFF` the result is the single character with
code point `v`; otherwise the result is `v` reinterpreted as a
little-endian byte string of minimal length (`ceil(bit_length/8)`, at
least 1 byte), UTF-8-decoded with replacement of invalid sequences, with
*leading and* trailing NUL characters stripped (the source calls
`str.strip("\x00")`, which strips both ends, not only the trailing
ones). -/
theorem c5_decode_string_int :
    ∀ v : Nat,
      (v ≤ 0x10FFFF → decode_string (.int v) = utf8EncodeChar v) ∧
      (0x10FFFF < v →
        decode_string (.int v) =
          pyStripNulBoth (utf8DecodeReplace
            (toBytesLE v (max 1 ((bitLength v + 7) / 8))))) := by
  intro v
  constructor
  · intro h
    simp [decode_string, h]
  · intro h
    simp [decode_string, Nat.not_le.2 h]

/-- Witness for C5 (amended): both branches at concrete inputs. -/
theorem c5_witness :
    ((65 : Nat) ≤ 0x10FFFF ∧ decode_string (.int 65) = utf8EncodeChar 65) ∧
    ((0x10FFFF : Nat) < 1094778880 ∧
      decode_string (.int 1094778880) =
        pyStripNulBoth (utf8DecodeReplace
          (toBytesLE 1094778880 (max 1 ((bitLength 1094778880 + 7) / 8))))) :=
  ⟨⟨by decide, (c5_decode_string_int 65).1 (by decide)⟩,
   ⟨by decide, (c5_decode_string_int 1094778880).2 (by decide)⟩⟩

/-- Counterexample for C5 as stated: `v = 0x41410000` has little-endian
bytes `[0, 0, 65, 65]`; stripping only trailing NULs would give
`"\x00\x00AA"` (`[0, 0, 65, 65]`), but the coercer also strips the
leading NULs and returns `"AA"` (`[65, 65]`). -/
theorem c5_counterexample :
    decode_string (.int 1094778880) = [65, 65] ∧
    decode_string (.int 1094778880) ≠ [0, 0, 65, 65] := by
  refine ⟨by decide, by decide⟩

/-! ### Ladder extraction (`_parse_summaries`, `parse_build_search_payload`) -/

/-- The one exception the ladder extractor can raise: calling `.get` on a
decoded value that is not a dictionary (`AttributeError`), which no
handler catches. -/
inductive LadderErr where
  | attributeError
  deriving DecidableEq, Repr

/-- Source `BuildSummary(account=..., character=...)`; strings as UTF-8 bytes. -/
structure BuildSummary where
  account : List Nat
  character : List Nat
  deriving DecidableEq, Repr

/-- Source `BuildSearchData(summaries=...)`. -/
structure BuildSearchData where
  summaries : List BuildSummary
  deriving DecidableEq, Repr

/-- Byte string of an ASCII Lean string literal. -/
def asciiStr (s : String) : List Nat :=
  s.data.map Char.toNat

/-- Whether a decoded value is a nested message (a Python `dict`). -/
def Value.isMsg : Value → Bool
  | .msg _ => true
  | _ => false

/-- Source `column_map[name] = values`: Python dict assignment (replace an
existing key in place, else append). -/
def colMapSet : List (List Nat × List Value) → List Nat → List Value →
    List (List Nat × List Value)
  | [], k, v => [(k, v)]
  | (k', v') :: rest, k, v =>
      if k = k' then (k, v) :: rest else (k', v') :: colMapSet rest k v

/-- Source `column_map.get(name, [])`. -/
def colMapGetD : List (List Nat × List Value) → List Nat → List Value
  | [], _ => []
  | (k', v') :: rest, k => if k = k' then v' else colMapGetD rest k

/-- The column loop of `_parse_summaries`: each column must be a
dictionary (otherwise `column.get` raises `AttributeError`); columns with
an empty decoded name are skipped, the rest populate the name → values
map. -/
def buildColumnMap : List Value → List (List Nat × List Value) →
    Except LadderErr (List (List Nat × List Value))
  | [], acc => .ok acc
  | column :: rest, acc =>
      match column with
      | .msg m =>
          if decodeStringList (msgGetD m 1) = [] then
            buildColumnMap rest acc
          else
            buildColumnMap rest
              (colMapSet acc (decodeStringList (msgGetD m 1)) (msgGetD m 2))
      | _ => .error .attributeError

/-- The zip-and-filter loop of `_parse_summaries`: keep pairs in which
both account and character are non-empty. -/
def mkSummaries : List (List Nat × List Nat) → List BuildSummary
  | [] => []
  | (account, character) :: rest =>
      if account ≠ [] ∧ character ≠ [] then
        ⟨account, character⟩ :: mkSummaries rest
      else
        mkSummaries rest

/-- Source `_parse_summaries(columns)`. -/
def parse_summaries (columns : List Value) : Except LadderErr (List BuildSummary) :=
  match buildColumnMap columns [] with
  | .error e => .error e
  | .ok columnMap =>
      let names := (colMapGetD columnMap (asciiStr "name")).map decode_string
      let accounts := (colMapGetD columnMap (asciiStr "account")).map decode_string
      .ok (mkSummaries (accounts.zip names))

/-- Source `parse_build_search_payload(payload)`. -/
def parse_build_search_payload (payload : List Nat) :
    Except LadderErr BuildSearchData :=
  if (parse_message payload).isEmpty then .ok ⟨[]⟩
  else
    match msgGet (parse_message payload) 1 with
    | none => .ok ⟨[]⟩
    | some [] => .ok ⟨[]⟩
    | some (container :: _) =>
        match container with
        | .msg c =>
            match parse_summaries (msgGetD c 5) with
            | .error e => .error e
            | .ok summaries => .ok ⟨summaries⟩
        | _ => .ok ⟨[]⟩

theorem buildColumnMap_error {columns : List Value}
    {acc : List (List Nat × List Value)} {e : LadderErr}
    (h : buildColumnMap columns acc = .error e) :
    e = .attributeError ∧ ∃ v ∈ columns, v.isMsg = false := by
  induction columns generalizing acc with
  | nil => simp [buildColumnMap] at h
  | cons column rest ih =>
      cases column with
      | msg m =>
          simp only [buildColumnMap] at h
          split at h
          · obtain ⟨he, v, hv, hv2⟩ := ih h
            exact ⟨he, v, List.mem_cons_of_mem _ hv, hv2⟩
          · obtain ⟨he, v, hv, hv2⟩ := ih h
            exact ⟨he, v, List.mem_cons_of_mem _ hv, hv2⟩
      | int v =>
          cases e
          exact ⟨rfl, .int v, List.mem_cons_self _ _, rfl⟩
      | bytes bs =>
          cases e
          exact ⟨rfl, .bytes bs, List.mem_cons_self _ _, rfl⟩

theorem buildColumnMap_ok {columns : List Value}
    (hall : ∀ v ∈ columns, v.isMsg = true) :
    ∀ acc : List (List Nat × List Value),
      ∃ m, buildColumnMap columns acc = .ok m := by
  induction columns with
  | nil => intro acc; exact ⟨acc, rfl⟩
  | cons column rest ih =>
      intro acc
      have hcol := hall column (List.mem_cons_self _ _)
      have hrest : ∀ v ∈ rest, v.isMsg = true :=
        fun v hv => hall v (List.mem_cons_of_mem _ hv)
      cases column with
      | msg m =>
          by_cases hname : decodeStringList (msgGetD m 1) = []
          · obtain ⟨m', hm'⟩ := ih hrest acc
            refine ⟨m', ?_⟩
            simp only [buildColumnMap, if_pos hname]
            exact hm'
          · obtain ⟨m', hm'⟩ :=
              ih hrest (colMapSet acc (decodeStringList (msgGetD m 1)) (msgGetD m 2))
            refine ⟨m', ?_⟩
            simp only [buildColumnMap, if_neg hname]
            exact hm'
      | int v => simp [Value.isMsg] at hcol
      | bytes bs => simp [Value.isMsg] at hcol

/-! ### Claim C2: total ladder decoding -/

/-- Claim C2 (amended): `parse_build_search_payload` degrades every
malformed top-level structure or missing field to an empty result, and
every internal parse exception is caught — with one exception the source
does not handle: when the decoded container's field-5 list contains a
value that is not a nested message, the column loop of
`_parse_summaries` calls `.get` on it and an `AttributeError` propagates.
Part one: any raised error is that `AttributeError`, and it implies
field 5 of the container holds a non-message value.  Part two: when every
field-5 value is a nested message, the function returns a
`BuildSearchData` result. -/
theorem c2_payload_decode_total :
    ∀ payload : List Nat,
      (∀ e, parse_build_search_payload payload = .error e →
        e = .attributeError ∧
        ∃ c rest, msgGet (parse_message payload) 1 = some (Value.msg c :: rest) ∧
          ∃ v ∈ msgGetD c 5, v.isMsg = false) ∧
      ((∀ c rest, msgGet (parse_message payload) 1 = some (Value.msg c :: rest) →
          ∀ v ∈ msgGetD c 5, v.isMsg = true) →
        ∃ r, parse_build_search_payload payload = .ok r) := by
  intro payload
  constructor
  · intro e h
    simp only [parse_build_search_payload] at h
    split at h
    · simp at h
    · split at h
      · simp at h
      · simp at h
      · rename_i container rest' hget
        cases container with
        | msg c =>
            simp only at h
            cases hs : parse_summaries (msgGetD c 5) with
            | ok s => rw [hs] at h; simp at h
            | error e' =>
                cases e
                unfold parse_summaries at hs
                cases hb : buildColumnMap (msgGetD c 5) [] with
                | ok m => rw [hb] at hs; simp at hs
                | error e'' =>
                    obtain ⟨he, v, hv, hvm⟩ := buildColumnMap_error hb
                    exact ⟨rfl, c, rest', hget, v, hv, hvm⟩
        | int v => simp at h
        | bytes bs => simp at h
  · intro hall
    simp only [parse_build_search_payload]
    split
    · exact ⟨⟨[]⟩, rfl⟩
    · split
      · exact ⟨⟨[]⟩, rfl⟩
      · exact ⟨⟨[]⟩, rfl⟩
      · rename_i container rest' hget
        cases container with
        | msg c =>
            simp only
            obtain ⟨m, hm⟩ := buildColumnMap_ok (hall c rest' hget) []
            unfold parse_summaries
            rw [hm]
            exact ⟨_, rfl⟩
        | int v => exact ⟨⟨[]⟩, rfl⟩
        | bytes bs => exact ⟨⟨[]⟩, rfl⟩

/-- Witness for C2 (amended): the error part at the concrete payload
whose container's field 5 holds a varint, and the total part at the empty
payload. -/
theorem c2_witness :
    (parse_build_search_payload [10, 4, 8, 0, 40, 7] = .error .attributeError ∧
      (LadderErr.attributeError = .attributeError ∧
        ∃ c rest,
          msgGet (parse_message [10, 4, 8, 0, 40, 7]) 1 = some (Value.msg c :: rest) ∧
          ∃ v ∈ msgGetD c 5, v.isMsg = false)) ∧
    (∃ r, parse_build_search_payload [] = .ok r) :=
  ⟨⟨by rfl, (c2_payload_decode_total [10, 4, 8, 0, 40, 7]).1 .attributeError (by rfl)⟩,
   (c2_payload_decode_total []).2 (fun c rest hcr => Option.noConfusion hcr)⟩

/-- Counterexample for C2 as stated: on the payload
`[0x0A, 0x04, 0x08, 0x00, 0x28, 0x07]` the decoded container's field 5
holds the varint `7`; the column loop calls `7.get(...)` and the
resulting `AttributeError` propagates out of
`parse_build_search_payload` instead of an empty result. -/
theorem c2_counterexample :
    parse_build_search_payload [10, 4, 8, 0, 40, 7] = .error .attributeError := by
  rfl

/-! ## Item-text parser (`parse_item_text` of
`backend/src/contexts/builds/services/pob.py`, line-identical to the copy
in `backend/src/contexts/upstream/services/pob_parser.py`).

Python `str` values are modelled as `List Char` (sequences of code
points). -/

/-- The one exception `parse_item_text` can raise: `int(...)` failing on
the text after an `"Implicits:"` marker (`ValueError`). -/
inductive ItemErr where
  | valueError
  deriving DecidableEq, Repr

/-- Python `str.isspace` characters (the set used by `str.strip()` and
`str.split()` with no argument). -/
def pyIsSpace (c : Char) : Bool :=
  decide (c.toNat ∈ ([9, 10, 11, 12, 13, 28, 29, 30, 31, 32, 133, 160, 5760,
    8192, 8193, 8194, 8195, 8196, 8197, 8198, 8199, 8200, 8201, 8202,
    8232, 8233, 8239, 8287, 12288] : List Nat))

/-- Source `str.strip()`: drop whitespace from both ends. -/
def pyStrip (l : List Char) : List Char :=
  ((l.dropWhile pyIsSpace).reverse.dropWhile pyIsSpace).reverse

/-- Source `str.split("\n")`. -/
def splitLines : List Char → List (List Char)
  | [] => [[]]
  | c :: rest =>
      if c = '\n' then [] :: splitLines rest
      else
        match splitLines rest with
        | [] => [[c]]
        | l :: ls => (c :: l) :: ls

/-- Source `[line.strip() for line in text.strip().split("\n") if line.strip()]`. -/
def normalizeLines (text : List Char) : List (List Char) :=
  ((splitLines (pyStrip text)).map pyStrip).filter (fun l => !l.isEmpty)

/-- Source `line.startswith(p)`. -/
def pyStartsWith (p line : List Char) : Bool :=
  List.isPrefixOf p line

/-- Source `pat in line` (substring containment). -/
def hasSubstr (pat : List Char) : List Char → Bool
  | [] => pat.isEmpty
  | c :: rest => List.isPrefixOf pat (c :: rest) || hasSubstr pat rest

/-- Source `line.split(":", 1)[1]`: everything after the first colon. -/
def afterFirstColon : List Char → List Char
  | [] => []
  | c :: rest => if c = ':' then rest else afterFirstColon rest

/-- Source `line.split(":", 1)[0]`: everything before the first colon. -/
def beforeFirstColon : List Char → List Char
  | [] => []
  | c :: rest => if c = ':' then [] else c :: beforeFirstColon rest

/-- Digit loop of `int(s)`: decimal digits with single underscores
allowed between digits. -/
def pyIntGo : List Char → Nat → Except ItemErr Nat
  | [], acc => .ok acc
  | c :: rest, acc =>
      if c.isDigit then pyIntGo rest (acc * 10 + (c.toNat - 48))
      else if c = '_' then
        match rest with
        | [] => .error .valueError
        | d :: rest2 =>
            if d.isDigit then pyIntGo rest2 (acc * 10 + (d.toNat - 48))
            else .error .valueError
      else .error .valueError

/-- Source `int(s)` on a decimal string: optional surrounding whitespace,
optional sign, non-empty digit sequence; raises `ValueError` otherwise. -/
def pyInt (s : List Char) : Except ItemErr Int :=
  match pyStrip s with
  | [] => .error .valueError
  | '-' :: rest =>
      match rest with
      | [] => .error .valueError
      | d :: rest2 =>
          if d.isDigit then (pyIntGo rest2 (d.toNat - 48)).map (fun n => -(n : Int))
          else .error .valueError
  | '+' :: rest =>
      match rest with
      | [] => .error .valueError
      | d :: rest2 =>
          if d.isDigit then (pyIntGo rest2 (d.toNat - 48)).map (fun n => (n : Int))
          else .error .valueError
  | d :: rest =>
      if d.isDigit then (pyIntGo rest (d.toNat - 48)).map (fun n => (n : Int))
      else .error .valueError

/-- The structured item record built by `parse_item_text`.  The Python
dict's "key absent" and "key = None" states are both `none`. -/
structure ItemData where
  rarity : Option (List Char) := none
  name : Option (List Char) := none
  base_type : Option (List Char) := none
  corrupted : Bool := false
  sockets : Option (List Char) := none
  unique_id : Option (List Char) := none
  properties : List (List Char × List Char) := []
  implicit_mods : List (List Char) := []
  explicit_mods : List (List Char) := []
  deriving DecidableEq, Repr

/-- Python dict assignment on the properties map: replace an existing key
in place, else append. -/
def propSet : List (List Char × List Char) → List Char → List Char →
    List (List Char × List Char)
  | [], k, v => [(k, v)]
  | (k', v') :: rest, k, v =>
      if k = k' then (k, v) :: rest else (k', v') :: propSet rest k v

/-- Rarity phase: consume a leading `"Rarity:"` line. -/
def rarityPhase : List (List Char) → ItemData × List (List Char)
  | [] => ({}, [])
  | line :: rest =>
      if pyStartsWith ("Rarity:".data) line then
        ({ rarity := some (pyStrip (afterFirstColon line)) }, rest)
      else
        ({}, line :: rest)

/-- Name/base-type phase: UNIQUE/RARE items consume two lines (name then
base type) when at least two remain; otherwise one line becomes the base
type (name explicitly `None`). -/
def namePhase (d : ItemData) (lines : List (List Char)) :
    ItemData × List (List Char) :=
  if d.rarity = some ("UNIQUE".data) ∨ d.rarity = some ("RARE".data) then
    match lines with
    | a :: b :: rest => ({ d with name := some a, base_type := some b }, rest)
    | _ => (d, lines)
  else
    match lines with
    | a :: rest => ({ d with name := none, base_type := some a }, rest)
    | [] => (d, [])

/-- The lines processed by the property/mod loop. -/
def bodyLines (text : List Char) : List (List Char) :=
  (namePhase (rarityPhase (normalizeLines text)).1
    (rarityPhase (normalizeLines text)).2).2

/-- The item record produced by the preamble phases. -/
def preambleData (text : List Char) : ItemData :=
  (namePhase (rarityPhase (normalizeLines text)).1
    (rarityPhase (normalizeLines text)).2).1

/-- The fixed known property keys. -/
def knownPropKeys : List (List Char) :=
  ["Energy Shield".data, "Armour".data, "Evasion".data, "Quality".data,
   "Item Level".data, "LevelReq".data]

/-- The property/mod loop of `parse_item_text`, carrying the
`in_implicits` flag and the remaining implicit count. -/
def itemLoop : List (List Char) → Bool → Int → ItemData → Except ItemErr ItemData
  | [], _, _, d => .ok d
  | line :: rest, inImp, count, d =>
      if pyStartsWith ("Implicits:".data) line then
        match pyInt (pyStrip (afterFirstColon line)) with
        | .error e => .error e
        | .ok n => itemLoop rest true n d
      else if line = ("Corrupted".data) then
        itemLoop rest inImp count { d with corrupted := true }
      else if hasSubstr (": ".data) line then
        if pyStrip (beforeFirstColon line) ∈ knownPropKeys then
          itemLoop rest inImp count
            { d with properties := (propSet d.properties
                (pyStrip (beforeFirstColon line)) (pyStrip (afterFirstColon line))) }
        else if pyStrip (beforeFirstColon line) = ("Sockets".data) then
          itemLoop rest inImp count
            { d with sockets := some (pyStrip (afterFirstColon line)) }
        else if pyStrip (beforeFirstColon line) = ("Unique ID".data) then
          itemLoop rest inImp count
            { d with unique_id := some (pyStrip (afterFirstColon line)) }
        else
          itemLoop rest inImp count
            { d with properties := (propSet d.properties
                (pyStrip (beforeFirstColon line)) (pyStrip (afterFirstColon line))) }
      else
        if inImp ∧ count > 0 then
          itemLoop rest (if count - 1 = 0 then false else inImp) (count - 1)
            { d with implicit_mods := d.implicit_mods ++ [line] }
        else
          itemLoop rest inImp count
            { d with explicit_mods := d.explicit_mods ++ [line] }

/-- Source `parse_item_text(item_text)`. -/
def parse_item_text (text : List Char) : Except ItemErr ItemData :=
  if (normalizeLines text).isEmpty then .ok {}
  else itemLoop (bodyLines text) false 0 (preambleData text)

/-- A body line that the loop treats as a mod: not an `"Implicits:"`
marker, not the literal `"Corrupted"`, and without `": "`. -/
def isModLine (l : List Char) : Bool :=
  !pyStartsWith ("Implicits:".data) l && !(l == ("Corrupted".data)) &&
    !hasSubstr (": ".data) l

theorem rarityPhase_mem {ls : List (List Char)} {l : List Char}
    (h : l ∈ (rarityPhase ls).2) : l ∈ ls := by
  cases ls with
  | nil => simp [rarityPhase] at h
  | cons a rest =>
      simp only [rarityPhase] at h
      split at h
      · exact List.mem_cons_of_mem _ h
      · exact h

theorem namePhase_mem {d : ItemData} {ls : List (List Char)} {l : List Char}
    (h : l ∈ (namePhase d ls).2) : l ∈ ls := by
  simp only [namePhase] at h
  split at h
  · match ls, h with
    | a :: b :: rest, h =>
        exact List.mem_cons_of_mem _ (List.mem_cons_of_mem _ h)
    | [], h => exact h
    | [a], h => exact h
  · match ls, h with
    | a :: rest, h => exact List.mem_cons_of_mem _ h
    | [], h => simp at h

theorem bodyLines_mem {text : List Char} {l : List Char}
    (h : l ∈ bodyLines text) : l ∈ normalizeLines text :=
  rarityPhase_mem (namePhase_mem h)

theorem rarityPhase_implicit_mods (ls : List (List Char)) :
    ((rarityPhase ls).1).implicit_mods = [] := by
  cases ls with
  | nil => simp [rarityPhase]
  | cons a rest =>
      simp only [rarityPhase]
      split <;> rfl

theorem namePhase_implicit_mods (d : ItemData) (ls : List (List Char)) :
    ((namePhase d ls).1).implicit_mods = d.implicit_mods := by
  simp only [namePhase]
  split
  · match ls with
    | a :: b :: rest => rfl
    | [] => rfl
    | [a] => rfl
  · match ls with
    | a :: rest => rfl
    | [] => rfl

theorem preambleData_implicit_mods (text : List Char) :
    (preambleData text).implicit_mods = [] := by
  unfold preambleData
  rw [namePhase_implicit_mods, rarityPhase_implicit_mods]

/-- The only error of the item loop: a failing `int()` on an
`"Implicits:"` line. -/
theorem itemLoop_error :
    ∀ (lines : List (List Char)) (inImp : Bool) (count : Int) (d : ItemData)
      (e : ItemErr),
      itemLoop lines inImp count d = .error e →
      ∃ line ∈ lines, pyStartsWith ("Implicits:".data) line = true ∧
        pyInt (pyStrip (afterFirstColon line)) = .error .valueError := by
  intro lines
  induction lines with
  | nil => intro inImp count d e h; simp [itemLoop] at h
  | cons line rest ih =>
      intro inImp count d e h
      simp only [itemLoop] at h
      split at h
      · rename_i hpref
        cases hint : pyInt (pyStrip (afterFirstColon line)) with
        | error e' =>
            cases e'
            exact ⟨line, List.mem_cons_self _ _, hpref, hint⟩
        | ok n =>
            rw [hint] at h
            obtain ⟨l, hl, hrest⟩ := ih _ _ _ _ h
            exact ⟨l, List.mem_cons_of_mem _ hl, hrest⟩
      · split at h
        · obtain ⟨l, hl, hrest⟩ := ih _ _ _ _ h
          exact ⟨l, List.mem_cons_of_mem _ hl, hrest⟩
        · split at h
          · split at h
            · obtain ⟨l, hl, hrest⟩ := ih _ _ _ _ h
              exact ⟨l, List.mem_cons_of_mem _ hl, hrest⟩
            · split at h
              · obtain ⟨l, hl, hrest⟩ := ih _ _ _ _ h
                exact ⟨l, List.mem_cons_of_mem _ hl, hrest⟩
              · split at h
                · obtain ⟨l, hl, hrest⟩ := ih _ _ _ _ h
                  exact ⟨l, List.mem_cons_of_mem _ hl, hrest⟩
                · obtain ⟨l, hl, hrest⟩ := ih _ _ _ _ h
                  exact ⟨l, List.mem_cons_of_mem _ hl, hrest⟩
          · split at h
            · obtain ⟨l, hl, hrest⟩ := ih _ _ _ _ h
              exact ⟨l, List.mem_cons_of_mem _ hl, hrest⟩
            · obtain ⟨l, hl, hrest⟩ := ih _ _ _ _ h
              exact ⟨l, List.mem_cons_of_mem _ hl, hrest⟩

/-- The item loop always succeeds when every `"Implicits:"` line has a
parseable integer. -/
theorem itemLoop_ok :
    ∀ (lines : List (List Char)) (inImp : Bool) (count : Int) (d : ItemData),
      (∀ line ∈ lines, pyStartsWith ("Implicits:".data) line = true →
        ∃ n, pyInt (pyStrip (afterFirstColon line)) = .ok n) →
      ∃ d', itemLoop lines inImp count d = .ok d' := by
  intro lines
  induction lines with
  | nil => intro inImp count d _; exact ⟨d, rfl⟩
  | cons line rest ih =>
      intro inImp count d hall
      have hrest : ∀ l ∈ rest, pyStartsWith ("Implicits:".data) l = true →
          ∃ n, pyInt (pyStrip (afterFirstColon l)) = .ok n :=
        fun l hl => hall l (List.mem_cons_of_mem _ hl)
      simp only [itemLoop]
      split
      · rename_i hpref
        obtain ⟨n, hn⟩ := hall line (List.mem_cons_self _ _) hpref
        rw [hn]
        exact ih _ _ _ hrest
      · split
        · exact ih _ _ _ hrest
        · split
          · split
            · exact ih _ _ _ hrest
            · split
              · exact ih _ _ _ hrest
              · split
                · exact ih _ _ _ hrest
                · exact ih _ _ _ hrest
          · split
            · exact ih _ _ _ hrest
            · exact ih _ _ _ hrest

/-! ### Claim C6: the item-text parser's totality -/

/-- Claim C6 (amended): `parse_item_text` returns an item record for every
input string whose `"Implicits:"` lines carry a parseable integer:
unrecognized lines become generic properties or mod entries instead of
failing.  But a line starting with `"Implicits:"` whose remainder is not
a valid integer makes the source's `int(...)` raise `ValueError`, which
nothing catches.  Part one: any raised error comes from such a line;
part two: with all `"Implicits:"` lines parseable, the parser returns a
record. -/
theorem c6_item_text_total :
    ∀ text : List Char,
      (∀ e, parse_item_text text = .error e →
        ∃ line ∈ normalizeLines text,
          pyStartsWith ("Implicits:".data) line = true ∧
          pyInt (pyStrip (afterFirstColon line)) = .error .valueError) ∧
      ((∀ line ∈ normalizeLines text,
          pyStartsWith ("Implicits:".data) line = true →
          ∃ n, pyInt (pyStrip (afterFirstColon line)) = .ok n) →
        ∃ d, parse_item_text text = .ok d) := by
  intro text
  constructor
  · intro e h
    unfold parse_item_text at h
    split at h
    · simp at h
    · obtain ⟨l, hl, hrest⟩ := itemLoop_error _ _ _ _ _ h
      exact ⟨l, bodyLines_mem hl, hrest⟩
  · intro hall
    unfold parse_item_text
    split
    · exact ⟨{}, rfl⟩
    · exact itemLoop_ok _ _ _ _ (fun l hl => hall l (bodyLines_mem hl))

/-- Witness for C6 (amended): the error part at `"Sword\nImplicits: x"`
(whose `int("x")` fails) and the total part at `"Sword"`. -/
theorem c6_witness :
    (parse_item_text ("Sword\nImplicits: x".data) = .error .valueError ∧
      ∃ line ∈ normalizeLines ("Sword\nImplicits: x".data),
        pyStartsWith ("Implicits:".data) line = true ∧
        pyInt (pyStrip (afterFirstColon line)) = .error .valueError) ∧
    (∃ d, parse_item_text ("Sword".data) = .ok d) :=
  ⟨⟨by decide,
    (c6_item_text_total ("Sword\nImplicits: x".data)).1 .valueError (by decide)⟩,
   (c6_item_text_total ("Sword".data)).2 (by
     intro line hline hpref
     rw [show normalizeLines ("Sword".data) = [("Sword".data)] from by decide] at hline
     simp only [List.mem_singleton] at hline
     subst hline
     exact absurd hpref (by decide))⟩

/-- Counterexample for C6 as stated: the item text
`"Sword\nImplicits: x"` makes `parse_item_text` raise `ValueError` from
`int("x")` instead of returning a dict. -/
theorem c6_counterexample :
    parse_item_text ("Sword\nImplicits: x".data) = .error .valueError := by
  decide

/-- With `in_implicits` off and no `"Implicits:"` line, a prefix of body
lines is consumed without touching the implicit mods, the flag or the
count. -/
theorem itemLoop_false_append :
    ∀ (pre rest : List (List Char)) (count : Int) (d : ItemData),
      (∀ l ∈ pre, pyStartsWith ("Implicits:".data) l = false) →
      ∃ d₁, itemLoop (pre ++ rest) false count d = itemLoop rest false count d₁ ∧
        d₁.implicit_mods = d.implicit_mods := by
  intro pre
  induction pre with
  | nil => intro rest count d _; exact ⟨d, rfl, rfl⟩
  | cons line pre' ih =>
      intro rest count d hno
      have hline := hno line (List.mem_cons_self _ _)
      have hpre' : ∀ l ∈ pre', pyStartsWith ("Implicits:".data) l = false :=
        fun l hl => hno l (List.mem_cons_of_mem _ hl)
      rw [List.cons_append]
      simp only [itemLoop]
      rw [if_neg (by simp [hline])]
      split
      · obtain ⟨d₁, heq, himp⟩ := ih rest count { d with corrupted := true } hpre'
        exact ⟨d₁, heq, himp⟩
      · split
        · split
          · obtain ⟨d₁, heq, himp⟩ := ih rest count _ hpre'
            exact ⟨d₁, heq, himp⟩
          · split
            · obtain ⟨d₁, heq, himp⟩ := ih rest count _ hpre'
              exact ⟨d₁, heq, himp⟩
            · split
              · obtain ⟨d₁, heq, himp⟩ := ih rest count _ hpre'
                exact ⟨d₁, heq, himp⟩
              · obtain ⟨d₁, heq, himp⟩ := ih rest count _ hpre'
                exact ⟨d₁, heq, himp⟩
        · rw [if_neg (by simp)]
          obtain ⟨d₁, heq, himp⟩ := ih rest count _ hpre'
          exact ⟨d₁, heq, himp⟩

/-- With `in_implicits` off and no `"Implicits:"` line, the loop succeeds
and never appends an implicit mod. -/
theorem itemLoop_false_implicits :
    ∀ (lines : List (List Char)) (count : Int) (d d' : ItemData),
      (∀ l ∈ lines, pyStartsWith ("Implicits:".data) l = false) →
      itemLoop lines false count d = .ok d' →
      d'.implicit_mods = d.implicit_mods := by
  intro lines count d d' hno h
  obtain ⟨d₁, heq, himp⟩ := itemLoop_false_append lines [] count d hno
  rw [List.append_nil] at heq
  rw [heq] at h
  simp only [itemLoop, Except.ok.injEq] at h
  rw [← h, himp]

/-- With `in_implicits` on, remaining count `N` and no further
`"Implicits:"` line, the loop appends exactly `min N (number of
subsequent mod lines)` implicit mods. -/
theorem itemLoop_true_count :
    ∀ (lines : List (List Char)) (N : Int) (d d' : ItemData),
      (∀ l ∈ lines, pyStartsWith ("Implicits:".data) l = false) →
      itemLoop lines true N d = .ok d' →
      d'.implicit_mods.length =
        d.implicit_mods.length + min N.toNat (lines.countP (fun l => isModLine l)) := by
  intro lines
  induction lines with
  | nil =>
      intro N d d' _ h
      simp only [itemLoop, Except.ok.injEq] at h
      simp [← h]
  | cons line rest ih =>
      intro N d d' hno h
      have hline := hno line (List.mem_cons_self _ _)
      have hrest : ∀ l ∈ rest, pyStartsWith ("Implicits:".data) l = false :=
        fun l hl => hno l (List.mem_cons_of_mem _ hl)
      simp only [itemLoop] at h
      rw [if_neg (by simp [hline])] at h
      rw [List.countP_cons]
      split at h
      · -- "Corrupted"
        rename_i hc
        have hmod : isModLine line = false := by simp [isModLine, hc]
        have hthis := ih N _ d' hrest h
        rw [show ({ d with corrupted := true } : ItemData).implicit_mods =
              d.implicit_mods from rfl] at hthis
        rw [hthis, hmod]
        simp
      · split at h
        · -- ": " line, four sub-branches, none touching the implicit list
          rename_i hnc hcs
          have hmod : isModLine line = false := by simp [isModLine, hcs]
          split at h
          · have hthis := ih N _ d' hrest h
            rw [show ({ d with properties := (propSet d.properties
                  (pyStrip (beforeFirstColon line)) (pyStrip (afterFirstColon line))) } :
                  ItemData).implicit_mods = d.implicit_mods from rfl] at hthis
            rw [hthis, hmod]
            simp
          · split at h
            · have hthis := ih N _ d' hrest h
              rw [show ({ d with sockets := some (pyStrip (afterFirstColon line)) } :
                    ItemData).implicit_mods = d.implicit_mods from rfl] at hthis
              rw [hthis, hmod]
              simp
            · split at h
              · have hthis := ih N _ d' hrest h
                rw [show ({ d with unique_id := some (pyStrip (afterFirstColon line)) } :
                      ItemData).implicit_mods = d.implicit_mods from rfl] at hthis
                rw [hthis, hmod]
                simp
              · have hthis := ih N _ d' hrest h
                rw [show ({ d with properties := (propSet d.properties
                      (pyStrip (beforeFirstColon line)) (pyStrip (afterFirstColon line))) } :
                      ItemData).implicit_mods = d.implicit_mods from rfl] at hthis
                rw [hthis, hmod]
                simp
        · -- mod line
          rename_i hnc hns
          have hmod : isModLine line = true := by
            simp [isModLine, hline, hnc, hns]
          rw [hmod]
          split at h
          · rename_i hcount
            have hN : 0 < N := hcount.2
            by_cases hN1 : N - 1 = 0
            · rw [if_pos hN1] at h
              have hthis := itemLoop_false_implicits rest (N - 1) _ d' hrest h
              rw [show ({ d with implicit_mods := d.implicit_mods ++ [line] } :
                    ItemData).implicit_mods = d.implicit_mods ++ [line] from rfl] at hthis
              rw [hthis]
              have hN' : N = 1 := by omega
              subst hN'
              simp only [List.length_append, List.length_cons, List.length_nil, if_true]
              omega
            · rw [if_neg hN1] at h
              have hthis := ih (N - 1) _ d' hrest h
              rw [show ({ d with implicit_mods := d.implicit_mods ++ [line] } :
                    ItemData).implicit_mods = d.implicit_mods ++ [line] from rfl] at hthis
              rw [hthis]
              simp only [List.length_append, List.length_cons, List.length_nil, if_true]
              omega
          · rename_i hcount
            have hN : ¬ 0 < N := fun hcontra => hcount ⟨trivial, hcontra⟩
            have hthis := ih N _ d' hrest h
            rw [show ({ d with explicit_mods := d.explicit_mods ++ [line] } :
                  ItemData).implicit_mods = d.implicit_mods from rfl] at hthis
            rw [hthis]
            simp only [if_true]
            omega

/-! ### Claim C7: the implicit-mod count invariant -/

/-- Claim C7 (amended): For every item text whose body contains exactly one
`"Implicits:"` line, declaring the integer `N`, the parsed record
satisfies `len(implicit_mods) = min(max(N,0), M)` where `M` is the number
of subsequent mod lines (lines without `": "` that are not the literal
`"Corrupted"`): the declared count is honoured only when enough mod lines
follow; fewer mod lines give fewer implicits.  For every item text with
no rarity/implicits marker, `implicit_mods` is empty. -/
theorem c7_implicit_count :
    (∀ (text : List Char) (N : Int) (pre post : List (List Char))
       (line : List Char),
       bodyLines text = pre ++ line :: post →
       (∀ l ∈ pre, pyStartsWith ("Implicits:".data) l = false) →
       (∀ l ∈ post, pyStartsWith ("Implicits:".data) l = false) →
       pyStartsWith ("Implicits:".data) line = true →
       pyInt (pyStrip (afterFirstColon line)) = .ok N →
       ∀ d, parse_item_text text = .ok d →
         d.implicit_mods.length =
           min N.toNat (post.countP (fun l => isModLine l))) ∧
    (∀ text : List Char,
       (∀ l ∈ normalizeLines text, pyStartsWith ("Implicits:".data) l = false) →
       ∀ d, parse_item_text text = .ok d → d.implicit_mods = []) := by
  constructor
  · intro text N pre post line hbody hpre hpost hpref hint d hok
    unfold parse_item_text at hok
    split at hok
    · rename_i hemp
      have hb : bodyLines text = [] := by
        unfold bodyLines
        rw [show normalizeLines text = [] from by
          simpa [List.isEmpty_iff] using hemp]
        rfl
      rw [hb] at hbody
      simp at hbody
    · rw [hbody] at hok
      obtain ⟨d₁, heq, himp⟩ :=
        itemLoop_false_append pre (line :: post) 0 (preambleData text) hpre
      rw [heq] at hok
      simp only [itemLoop] at hok
      rw [if_pos hpref, hint] at hok
      have hcount := itemLoop_true_count post N d₁ d hpost hok
      rw [himp, preambleData_implicit_mods] at hcount
      simpa using hcount
  · intro text hall d hok
    unfold parse_item_text at hok
    split at hok
    · simp only [Except.ok.injEq] at hok
      rw [← hok]
    · have hbody : ∀ l ∈ bodyLines text, pyStartsWith ("Implicits:".data) l = false :=
        fun l hl => hall l (bodyLines_mem hl)
      have := itemLoop_false_implicits (bodyLines text) 0 (preambleData text) d hbody hok
      rw [this, preambleData_implicit_mods]

/-- Witness for C7 (amended): `"Sword\nImplicits: 2\nmod"` declares two
implicits but only one mod line follows, so exactly one implicit mod is
recorded (`min 2 1`); and `"Sword"` has no markers and no implicits. -/
theorem c7_witness :
    (bodyLines ("Sword\nImplicits: 2\nmod".data) =
        [] ++ ("Implicits: 2".data) :: [("mod".data)] ∧
      pyStartsWith ("Implicits:".data) ("Implicits: 2".data) = true ∧
      pyInt (pyStrip (afterFirstColon ("Implicits: 2".data))) = .ok 2 ∧
      parse_item_text ("Sword\nImplicits: 2\nmod".data) =
        .ok { base_type := some ("Sword".data), implicit_mods := [("mod".data)] } ∧
      ({ base_type := some ("Sword".data),
         implicit_mods := [("mod".data)] } : ItemData).implicit_mods.length =
        min (Int.toNat 2) (List.countP (fun l => isModLine l) [("mod".data)])) ∧
    ((∀ l ∈ normalizeLines ("Sword".data),
        pyStartsWith ("Implicits:".data) l = false) ∧
      parse_item_text ("Sword".data) = .ok { base_type := some ("Sword".data) } ∧
      ({ base_type := some ("Sword".data) } : ItemData).implicit_mods = []) :=
  ⟨⟨by decide, by decide, by decide, by decide,
    c7_implicit_count.1 ("Sword\nImplicits: 2\nmod".data) 2 []
      [("mod".data)] ("Implicits: 2".data) (by decide) (by decide) (by decide)
      (by decide) (by decide) _ (by decide)⟩,
   ⟨by decide, by decide,
    c7_implicit_count.2 ("Sword".data) (by decide) _ (by decide)⟩⟩

/-- Counterexample for C7 as stated: `"Sword\nImplicits: 2\nmod"`
declares `Implicits: 2` but the parsed record has exactly one implicit
mod, not two. -/
theorem c7_counterexample :
    ("Implicits: 2".data) ∈ normalizeLines ("Sword\nImplicits: 2\nmod".data) ∧
    pyInt (pyStrip (afterFirstColon ("Implicits: 2".data))) = .ok 2 ∧
    (parse_item_text ("Sword\nImplicits: 2\nmod".data)).map
      (fun d => d.implicit_mods.length) = .ok 1 ∧
    (1 : Nat) ≠ 2 := by
  refine ⟨by decide, by decide, by decide, by decide⟩

/-! ## XML item extraction (`extract_items`) -/

/-- An `xml.etree.ElementTree.Element`: tag, attributes (document
order), text content, child elements. -/
structure XElem where
  tag : List Char
  attrs : List (List Char × List Char)
  text : Option (List Char)
  children : List XElem

/-- Attribute lookup (`element.get(k)`). -/
def attrLookup : List (List Char × List Char) → List Char → Option (List Char)
  | [], _ => none
  | (k', v) :: rest, k => if k = k' then some v else attrLookup rest k

/-- Source `element.find(tag)`: first direct child with the given tag. -/
def findChildGo : List XElem → List Char → Option XElem
  | [], _ => none
  | c :: rest, t => if c.tag = t then some c else findChildGo rest t

/-- Source `element.findall(tag)`: all direct children with the given tag. -/
def findAllGo : List XElem → List Char → List XElem
  | [], _ => []
  | c :: rest, t => if c.tag = t then c :: findAllGo rest t else findAllGo rest t

mutual

/-- One step of `tree.find(".//tag[@attr='val']")`: check an element,
then its subtree, in document order. -/
def findDescElem : XElem → List Char → List Char → List Char → Option XElem
  | XElem.mk tag attrs text children, t, ak, av =>
      if tag = t ∧ attrLookup attrs ak = some av then
        some ⟨tag, attrs, text, children⟩
      else
        findDescKids children t ak av
termination_by structural e _ _ _ => e

/-- Source `tree.find(".//tag[@attr='val']")` over a list of subtrees: first
match in document order (preorder). -/
def findDescKids : List XElem → List Char → List Char → List Char → Option XElem
  | [], _, _, _ => none
  | c :: rest, t, ak, av =>
      match findDescElem c t ak av with
      | some r => some r
      | none => findDescKids rest t ak av
termination_by structural l _ _ _ => l

end

/-- Python dict assignment for the id → item and slot → item maps. -/
def dictSetItem : List (List Char × ItemData) → List Char → ItemData →
    List (List Char × ItemData)
  | [], k, v => [(k, v)]
  | (k', v') :: rest, k, v =>
      if k = k' then (k, v) :: rest else (k', v') :: dictSetItem rest k v

/-- Lookup in the id → item map (`item_id in items_by_id` plus access). -/
def dictGetItem : List (List Char × ItemData) → List Char → Option ItemData
  | [], _ => none
  | (k', v') :: rest, k => if k = k' then some v' else dictGetItem rest k

/-- The `<Item>` loop of `extract_items`: parse every item with a
non-empty id and non-blank text into the id → record map.  An exception
from `parse_item_text` propagates. -/
def buildItemsById : List XElem → List (List Char × ItemData) →
    Except ItemErr (List (List Char × ItemData))
  | [], acc => .ok acc
  | item :: rest, acc =>
      match attrLookup item.attrs ("id".data) with
      | none => buildItemsById rest acc
      | some id_ =>
          if id_.isEmpty then buildItemsById rest acc
          else if (pyStrip ((item.text).getD [])).isEmpty then
            buildItemsById rest acc
          else
            match parse_item_text ((item.text).getD []) with
            | .error e => .error e
            | .ok d => buildItemsById rest (dictSetItem acc id_ d)

/-- The `<Slot>` loop of `extract_items`: skip empty slots
(`itemId == "0"`) and slots whose name contains `"Abyssal"` or `"Swap"`;
map the remaining slot names to the item looked up by id, silently
dropping unknown ids. -/
def buildSlotMap : List XElem → List (List Char × ItemData) →
    List (List Char × ItemData) → List (List Char × ItemData)
  | [], _, acc => acc
  | slot :: rest, itemsById, acc =>
      if (attrLookup slot.attrs ("itemId".data)).getD ("0".data) = ("0".data) then
        buildSlotMap rest itemsById acc
      else if hasSubstr ("Abyssal".data) ((attrLookup slot.attrs ("name".data)).getD []) ∨
          hasSubstr ("Swap".data) ((attrLookup slot.attrs ("name".data)).getD []) then
        buildSlotMap rest itemsById acc
      else
        match dictGetItem itemsById
            ((attrLookup slot.attrs ("itemId".data)).getD ("0".data)) with
        | some item =>
            buildSlotMap rest itemsById
              (dictSetItem acc ((attrLookup slot.attrs ("name".data)).getD []) item)
        | none => buildSlotMap rest itemsById acc

/-- Source `extract_items(tree)`. -/
def extract_items (tree : XElem) : Except ItemErr (List (List Char × ItemData)) :=
  match findChildGo tree.children ("Items".data) with
  | none => .ok []
  | some itemsElem =>
      match buildItemsById (findAllGo itemsElem.children ("Item".data)) [] with
      | .error e => .error e
      | .ok itemsById =>
          match findDescKids tree.children ("ItemSet".data) ("id".data)
              ((attrLookup itemsElem.attrs ("activeItemSet".data)).getD ("1".data)) with
          | none => .ok []
          | some itemSet =>
              .ok (buildSlotMap (findAllGo itemSet.children ("Slot".data)) itemsById [])

/-! ### Claim C9: slot filtering -/

/-- A `<Slot name=... itemId=...>` element. -/
def c9Slot (n i : String) : XElem :=
  ⟨"Slot".data, [("name".data, n.data), ("itemId".data, i.data)], none, []⟩

/-- An `<Item id=...>` element with text content. -/
def c9Item (i text : String) : XElem :=
  ⟨"Item".data, [("id".data, i.data)], some text.data, []⟩

/-- The build of claim C9: items 5, 7 and 8 defined; the active ItemSet
(default id "1") holds `"Weapon 1"`→5, `"Abyssal Jewel 1"`→7,
`"Weapon Swap"`→8 and `"Helmet"`→0. -/
def c9Tree : XElem :=
  ⟨"PathOfBuilding".data, [], none,
   [⟨"Items".data, [], none,
     [c9Item "5" "Rarity: RARE\nGreat Sword\nAxe",
      c9Item "7" "Searching Eye Jewel",
      c9Item "8" "Alt Sword",
      ⟨"ItemSet".data, [("id".data, "1".data)], none,
       [c9Slot "Weapon 1" "5", c9Slot "Abyssal Jewel 1" "7",
        c9Slot "Weapon Swap" "8", c9Slot "Helmet" "0"]⟩]⟩]⟩

/-- A variant whose only slot references the undefined item id "9". -/
def c9TreeUnknownId : XElem :=
  ⟨"PathOfBuilding".data, [], none,
   [⟨"Items".data, [], none,
     [c9Item "5" "Rarity: RARE\nGreat Sword\nAxe",
      ⟨"ItemSet".data, [("id".data, "1".data)], none,
       [c9Slot "Gloves" "9"]⟩]⟩]⟩

/-- Claim C9: On the claim's build, `extract_items` returns a slot map
whose only key is `"Weapon 1"` (bound to the parse of item 5's text):
the `itemId="0"` slot and the slots whose names contain `"Abyssal"` or
`"Swap"` are excluded; and a slot referencing an unknown item id is
silently omitted. -/
theorem c9_slot_filtering :
    extract_items c9Tree =
      (parse_item_text ("Rarity: RARE\nGreat Sword\nAxe".data)).map
        (fun d => [(("Weapon 1".data), d)]) ∧
    extract_items c9TreeUnknownId = .ok [] := by
  refine ⟨by decide, by decide⟩

/-! ## Import-code codec (`decode_pob_code_to_xml` of
`backend/src/contexts/builds/services/pob.py`)

Python `str` values are modelled as UTF-8 byte sequences (`List Nat`).
`base64` and `zlib` are Python standard-library collaborators, not
repository code: base64 is modelled from CPython's `binascii` (non-strict
`a2b_base64`), and zlib is abstracted as a decompressor parameter — the
round-trip property `decompress (compress b) = b` is assumed of it. -/

/-- ASCII whitespace bytes removed by `"".join(code.split())`.  (The
multi-byte encodings of Unicode whitespace code points are outside this
byte-level model; every input of the claims is ASCII.) -/
def isB64Ws (b : Nat) : Bool :=
  decide (b ∈ ([9, 10, 11, 12, 13, 28, 29, 30, 31, 32] : List Nat))

/-- Source `"".join(import_code.split())`: remove all whitespace anywhere. -/
def stripWs (code : List Nat) : List Nat :=
  code.filter (fun b => !isB64Ws b)

/-- The combined standard + URL-safe base64 alphabet accepted by the
validation step (`A–Z a–z 0–9 + / = - _`). -/
def validB64Chars : List Nat :=
  asciiStr "ABCDEFGHIJKLMNOPQRSTUVWXYZabcdefghijklmnopqrstuvwxyz0123456789+/=-_"

/-- Source `binascii` decode table: standard base64 character → six-bit value. -/
def a2bTable (c : Nat) : Option Nat :=
  if 65 ≤ c ∧ c ≤ 90 then some (c - 65)
  else if 97 ≤ c ∧ c ≤ 122 then some (c - 71)
  else if 48 ≤ c ∧ c ≤ 57 then some (c + 4)
  else if c = 43 then some 62
  else if c = 47 then some 63
  else none

/-- Standard base64 encode table: six-bit value → character. -/
def b2aStd (s : Nat) : Nat :=
  if s < 26 then s + 65
  else if s < 52 then s + 71
  else if s < 62 then s - 4
  else if s = 62 then 43
  else 47

/-- URL-safe base64 encode table (`-`/`_` for values 62/63). -/
def b2aUrl (s : Nat) : Nat :=
  if s < 26 then s + 65
  else if s < 52 then s + 71
  else if s < 62 then s - 4
  else if s = 62 then 45
  else 95

/-- Source `base64.b64encode` (with the given table): three input bytes become
four characters; tails of one or two bytes are padded with `=`. -/
def b64encodeWith (tb : Nat → Nat) : List Nat → List Nat
  | b1 :: b2 :: b3 :: rest =>
      tb (b1 / 4) :: tb ((b1 % 4) * 16 + b2 / 16) ::
        tb ((b2 % 16) * 4 + b3 / 64) :: tb (b3 % 64) :: b64encodeWith tb rest
  | [b1, b2] => [tb (b1 / 4), tb ((b1 % 4) * 16 + b2 / 16), tb ((b2 % 16) * 4), 61]
  | [b1] => [tb (b1 / 4), tb ((b1 % 4) * 16), 61, 61]
  | [] => []

/-- Source `base64.b64encode`. -/
def b64encode (bs : List Nat) : List Nat :=
  b64encodeWith b2aStd bs

/-- Source `base64.urlsafe_b64encode`. -/
def urlsafe_b64encode (bs : List Nat) : List Nat :=
  b64encodeWith b2aUrl bs

/-- Source `binascii.Error: Incorrect padding`. -/
def msgIncorrectPadding : List Nat :=
  asciiStr "Incorrect padding"

/-- Source `binascii.Error` for a quad of one data character. -/
def msgOneMore : List Nat :=
  asciiStr "Invalid base64-encoded string: number of data characters cannot be 1 more than a multiple of 4"

/-- CPython's non-strict `binascii.a2b_base64` loop: state is (input,
quad position, left-over bits, pending pads, output).  Invalid characters
and stray padding are skipped; padding that completes a quad ends the
decode; a trailing quad of one data character, or an unpadded quad of two
or three, is an error. -/
def a2bGo : List Nat → Nat → Nat → Nat → List Nat → Except (List Nat) (List Nat)
  | [], 0, _, _, acc => .ok acc
  | [], 1, _, _, _ => .error msgOneMore
  | [], _ + 2, _, _, _ => .error msgIncorrectPadding
  | c :: rest, qp, lc, pads, acc =>
      if c = 61 then
        if 2 ≤ qp then
          if 4 ≤ qp + (pads + 1) then .ok acc
          else a2bGo rest qp lc (pads + 1) acc
        else a2bGo rest qp lc pads acc
      else
        match a2bTable c with
        | none => a2bGo rest qp lc pads acc
        | some s =>
            match qp with
            | 0 => a2bGo rest 1 s 0 acc
            | 1 => a2bGo rest 2 (s % 16) 0 (acc ++ [lc * 4 + s / 16])
            | 2 => a2bGo rest 3 (s % 4) 0 (acc ++ [lc * 16 + s / 4])
            | _ => a2bGo rest 0 0 0 (acc ++ [lc * 64 + s])

/-- Source `base64.b64decode`. -/
def b64decode (s : List Nat) : Except (List Nat) (List Nat) :=
  a2bGo s 0 0 0 []

/-- The `-`→`+`, `_`→`/` translation of `urlsafe_b64decode`. -/
def urlTr (c : Nat) : Nat :=
  if c = 45 then 43 else if c = 95 then 47 else c

/-- Source `base64.urlsafe_b64decode`. -/
def urlsafe_b64decode (s : List Nat) : Except (List Nat) (List Nat) :=
  b64decode (s.map urlTr)

/-- Strict UTF-8 validity (the check performed by `bytes.decode("utf-8")`
in the byte-sequence model of strings). -/
def utf8ValidGo : Nat → List Nat → Bool
  | 0, l => l.isEmpty
  | _ + 1, [] => true
  | fuel + 1, b :: rest =>
      if b < 128 then utf8ValidGo fuel rest
      else if b < 194 then false
      else if b < 224 then
        match rest with
        | [] => false
        | c1 :: rest1 => utf8Cont c1 && utf8ValidGo fuel rest1
      else if b < 240 then
        match rest with
        | [] => false
        | c1 :: rest1 =>
            utf8ContRange3 b c1 &&
              (match rest1 with
               | [] => false
               | c2 :: rest2 => utf8Cont c2 && utf8ValidGo fuel rest2)
      else if b < 245 then
        match rest with
        | [] => false
        | c1 :: rest1 =>
            utf8ContRange4 b c1 &&
              (match rest1 with
               | [] => false
               | c2 :: rest2 =>
                   utf8Cont c2 &&
                     (match rest2 with
                      | [] => false
                      | c3 :: rest3 => utf8Cont c3 && utf8ValidGo fuel rest3))
      else false

/-- Source `bytes.decode("utf-8")` succeeds exactly on valid UTF-8. -/
def validUtf8 (bs : List Nat) : Bool :=
  utf8ValidGo bs.length bs

/-- A `zlib.error` with its message text. -/
structure ZlibErr where
  msg : List Nat
  deriving DecidableEq, Repr

/-- Decimal rendering of a natural number (for the `{len} chars`
interpolations). -/
def natToDecimalGo : Nat → Nat → List Nat
  | 0, _ => []
  | fuel + 1, n => if n < 10 then [48 + n] else natToDecimalGo fuel (n / 10) ++ [48 + n % 10]

/-- Decimal rendering of a natural number. -/
def natToDecimal (n : Nat) : List Nat :=
  natToDecimalGo (n + 1) n

/-- Source `str.lower()` on a byte string (ASCII). -/
def lowerBytes (bs : List Nat) : List Nat :=
  bs.map (fun b => if 65 ≤ b ∧ b ≤ 90 then b + 32 else b)

/-- Substring containment on byte strings (`pat in s`). -/
def hasSubstrB (pat : List Nat) : List Nat → Bool
  | [] => pat.isEmpty
  | c :: rest => List.isPrefixOf pat (c :: rest) || hasSubstrB pat rest

/-- Source `decode_pob_code_to_xml(import_code)`, with `zlib.decompress`
abstracted as the `zlibDecompress` parameter.  Errors carry the
`ValueError` message text; the rendering of the Python set
`{invalid_chars}` is modelled as the offending bytes in order. -/
def decode_pob_code_to_xml (zlibDecompress : List Nat → Except ZlibErr (List Nat))
    (importCode : List Nat) : Except (List Nat) (List Nat) :=
  if (stripWs importCode).isEmpty then
    .error (asciiStr "PoB import code is empty after removing whitespace")
  else if ¬ (stripWs importCode).all (fun c => decide (c ∈ validB64Chars)) then
    .error (asciiStr "PoB import code contains invalid characters for base64 encoding: " ++
      (stripWs importCode).filter (fun c => decide (c ∉ validB64Chars)))
  else
    match (if 45 ∈ stripWs importCode ∨ 95 ∈ stripWs importCode then
            urlsafe_b64decode (stripWs importCode)
           else
            b64decode (stripWs importCode)) with
    | .error e => .error (asciiStr "Invalid base64 in PoB import code: " ++ e)
    | .ok compressed =>
        match zlibDecompress compressed with
        | .error e =>
            if (stripWs importCode).length < 1000 then
              .error (asciiStr "PoB import code is too short (" ++
                natToDecimal (stripWs importCode).length ++
                asciiStr " chars). Typical codes are 10,000+.")
            else if (stripWs importCode).length < 5000 then
              .error (asciiStr "PoB import code may be incomplete (" ++
                natToDecimal (stripWs importCode).length ++
                asciiStr " chars). Typical codes are 10,000+.")
            else if hasSubstrB (asciiStr "invalid") (lowerBytes e.msg) ∨
                hasSubstrB (asciiStr "incorrect") (lowerBytes e.msg) then
              .error (asciiStr "PoB import code appears corrupted or incomplete (" ++
                natToDecimal (stripWs importCode).length ++
                asciiStr " chars). Try copying again from PoB.")
            else
              .error (asciiStr "Failed to decompress PoB code: " ++ e.msg)
        | .ok xmlBytes =>
            if validUtf8 xmlBytes then .ok xmlBytes
            else .error (asciiStr "PoB import code decompressed to invalid UTF-8: ")

/-- A zlib stub failing on every input, as real zlib does on data that is
not a zlib stream (used to instantiate the decompressor parameter on
paths that never reach it, or reach it with invalid data). -/
def zlibStub : List Nat → Except ZlibErr (List Nat) :=
  fun _ => .error ⟨asciiStr "Error -3 while decompressing data: incorrect header check"⟩

theorem isPrefixOf_append {pat a : List Nat} (b : List Nat)
    (h : List.isPrefixOf pat a = true) :
    List.isPrefixOf pat (a ++ b) = true := by
  rw [List.isPrefixOf_iff_prefix] at h ⊢
  exact h.trans (List.prefix_append a b)

theorem hasSubstrB_nil_pat : ∀ l : List Nat, hasSubstrB [] l = true := by
  intro l
  cases l with
  | nil => rfl
  | cons c rest => simp [hasSubstrB, List.isPrefixOf]

/-- Substring containment is preserved by appending on the right. -/
theorem hasSubstrB_append {pat a : List Nat} (b : List Nat)
    (h : hasSubstrB pat a = true) : hasSubstrB pat (a ++ b) = true := by
  induction a with
  | nil =>
      simp only [hasSubstrB, List.isEmpty_iff] at h
      subst h
      exact hasSubstrB_nil_pat b
  | cons c rest ih =>
      simp only [hasSubstrB, Bool.or_eq_true] at h
      rcases h with h | h
      · rw [List.cons_append]
        simp only [hasSubstrB, Bool.or_eq_true]
        left
        have hr : (c :: (rest ++ b)) = (c :: rest) ++ b := rfl
        rw [hr]
        exact isPrefixOf_append b h
      · rw [List.cons_append]
        simp only [hasSubstrB, Bool.or_eq_true]
        right
        exact ih h

theorem a2bTable_ne_61 {c s : Nat} (h : a2bTable c = some s) : c ≠ 61 := by
  intro hc
  subst hc
  simp [a2bTable] at h

/-- The eight shapes of a three-character base64 string that is not
`"==="` all make the non-strict CPython decoder fail: either an
unterminated quad ("Incorrect padding") or a single data character. -/
theorem a2b3_error :
    ∀ d1 d2 d3 : Nat,
      (d1 = 61 ∨ ∃ s, a2bTable d1 = some s) →
      (d2 = 61 ∨ ∃ s, a2bTable d2 = some s) →
      (d3 = 61 ∨ ∃ s, a2bTable d3 = some s) →
      ¬ (d1 = 61 ∧ d2 = 61 ∧ d3 = 61) →
      (a2bGo [d1, d2, d3] 0 0 0 [] = .error msgIncorrectPadding ∨
       a2bGo [d1, d2, d3] 0 0 0 [] = .error msgOneMore) := by
  intro d1 d2 d3 h1 h2 h3 hne
  rcases h1 with h1 | ⟨s1, h1⟩ <;> rcases h2 with h2 | ⟨s2, h2⟩ <;>
    rcases h3 with h3 | ⟨s3, h3⟩
  · exact absurd ⟨h1, h2, h3⟩ hne
  · -- = = D
    subst h1; subst h2
    have hd3 := a2bTable_ne_61 h3
    right
    simp [a2bGo, hd3, h3]
  · -- = D =
    subst h1; subst h3
    have hd2 := a2bTable_ne_61 h2
    right
    simp [a2bGo, hd2, h2]
  · -- = D D
    subst h1
    have hd2 := a2bTable_ne_61 h2
    have hd3 := a2bTable_ne_61 h3
    left
    simp [a2bGo, hd2, h2, hd3, h3]
  · -- D = =
    subst h2; subst h3
    have hd1 := a2bTable_ne_61 h1
    right
    simp [a2bGo, hd1, h1]
  · -- D = D
    subst h2
    have hd1 := a2bTable_ne_61 h1
    have hd3 := a2bTable_ne_61 h3
    left
    simp [a2bGo, hd1, h1, hd3, h3]
  · -- D D =
    subst h3
    have hd1 := a2bTable_ne_61 h1
    have hd2 := a2bTable_ne_61 h2
    left
    simp [a2bGo, hd1, h1, hd2, h2]
  · -- D D D
    have hd1 := a2bTable_ne_61 h1
    have hd2 := a2bTable_ne_61 h2
    have hd3 := a2bTable_ne_61 h3
    left
    simp [a2bGo, hd1, h1, hd2, h2, hd3, h3]

theorem validB64_not_ws : ∀ c ∈ validB64Chars, isB64Ws c = false := by decide

theorem urlTr_eq_61 {c : Nat} : urlTr c = 61 ↔ c = 61 := by
  unfold urlTr
  split
  · omega
  · split
    · omega
    · exact Iff.rfl

theorem validB64_decodable_url :
    ∀ c ∈ validB64Chars, urlTr c = 61 ∨ (a2bTable (urlTr c)).isSome = true := by
  decide

theorem validB64_decodable_std :
    ∀ c ∈ validB64Chars, c = 45 ∨ c = 95 ∨ c = 61 ∨ (a2bTable c).isSome = true := by
  decide

/-! ### Claim C4: import-code validation tiers -/

/-- Claim C4 (amended): empty-after-strip input raises an error
containing "empty"; input containing an exclamation mark raises an
error containing "invalid characters".  But a 3-character string of
valid base64-alphabet characters never reaches the zlib stage unless
every character is padding: base64 decoding itself fails (the length is
not a multiple of four) and the raised error contains "Invalid base64"
rather than "too short".  Only the all-padding string of three equals
signs decodes (to the empty byte string, whose zlib inflation fails)
and raises the length-tier error containing "too short". -/
theorem c4_validation_tiers :
    (∀ (z : List Nat → Except ZlibErr (List Nat)) (code : List Nat),
       stripWs code = [] →
       decode_pob_code_to_xml z code =
         .error (asciiStr "PoB import code is empty after removing whitespace") ∧
       hasSubstrB (asciiStr "empty")
         (asciiStr "PoB import code is empty after removing whitespace") = true) ∧
    (∀ (z : List Nat → Except ZlibErr (List Nat)) (code : List Nat),
       (33 : Nat) ∈ code →
       ∃ m, decode_pob_code_to_xml z code = .error m ∧
         hasSubstrB (asciiStr "invalid characters") m = true) ∧
    (∀ (z : List Nat → Except ZlibErr (List Nat)) (c1 c2 c3 : Nat),
       c1 ∈ validB64Chars → c2 ∈ validB64Chars → c3 ∈ validB64Chars →
       ¬ (c1 = 61 ∧ c2 = 61 ∧ c3 = 61) →
       ∃ m, decode_pob_code_to_xml z [c1, c2, c3] = .error m ∧
         hasSubstrB (asciiStr "Invalid base64") m = true ∧
         hasSubstrB (asciiStr "too short") m = false) ∧
    (∀ (z : List Nat → Except ZlibErr (List Nat)) (e : ZlibErr),
       z [] = .error e →
       ∃ m, decode_pob_code_to_xml z [61, 61, 61] = .error m ∧
         hasSubstrB (asciiStr "too short") m = true) := by
  refine ⟨?_, ?_, ?_, ?_⟩
  · intro z code h
    refine ⟨?_, by decide⟩
    simp [decode_pob_code_to_xml, h]
  · intro z code h33
    have hmem : (33 : Nat) ∈ stripWs code := by
      unfold stripWs
      exact List.mem_filter.2 ⟨h33, by decide⟩
    have hne : ¬ ((stripWs code).isEmpty = true) := by
      rw [List.isEmpty_iff]
      intro hc
      rw [hc] at hmem
      simp at hmem
    have hnall : ¬ ((stripWs code).all (fun c => decide (c ∈ validB64Chars)) = true) := by
      intro hall
      have h2 := List.all_eq_true.1 hall _ hmem
      exact absurd (of_decide_eq_true h2) (by decide)
    refine ⟨asciiStr "PoB import code contains invalid characters for base64 encoding: " ++
      (stripWs code).filter (fun c => decide (c ∉ validB64Chars)), ?_, ?_⟩
    · unfold decode_pob_code_to_xml
      rw [if_neg hne, if_pos hnall]
    · exact hasSubstrB_append _ (by decide)
  · intro z c1 c2 c3 h1 h2 h3 hne
    have hw1 := validB64_not_ws c1 h1
    have hw2 := validB64_not_ws c2 h2
    have hw3 := validB64_not_ws c3 h3
    have hs : stripWs [c1, c2, c3] = [c1, c2, c3] := by
      simp [stripWs, List.filter, hw1, hw2, hw3]
    have hall : ([c1, c2, c3].all (fun c => decide (c ∈ validB64Chars)) = true) := by
      simp [List.all_cons, h1, h2, h3]
    have hberr :
        (if 45 ∈ stripWs [c1, c2, c3] ∨ 95 ∈ stripWs [c1, c2, c3] then
          urlsafe_b64decode (stripWs [c1, c2, c3])
         else b64decode (stripWs [c1, c2, c3])) = .error msgIncorrectPadding ∨
        (if 45 ∈ stripWs [c1, c2, c3] ∨ 95 ∈ stripWs [c1, c2, c3] then
          urlsafe_b64decode (stripWs [c1, c2, c3])
         else b64decode (stripWs [c1, c2, c3])) = .error msgOneMore := by
      rw [hs]
      by_cases hus : 45 ∈ [c1, c2, c3] ∨ 95 ∈ [c1, c2, c3]
      · rw [if_pos hus]
        unfold urlsafe_b64decode b64decode
        simp only [List.map]
        refine a2b3_error _ _ _ ?_ ?_ ?_ ?_
        · rcases validB64_decodable_url c1 h1 with h | h
          · exact Or.inl h
          · exact Or.inr (Option.isSome_iff_exists.1 h)
        · rcases validB64_decodable_url c2 h2 with h | h
          · exact Or.inl h
          · exact Or.inr (Option.isSome_iff_exists.1 h)
        · rcases validB64_decodable_url c3 h3 with h | h
          · exact Or.inl h
          · exact Or.inr (Option.isSome_iff_exists.1 h)
        · intro ⟨e1, e2, e3⟩
          exact hne ⟨urlTr_eq_61.1 e1, urlTr_eq_61.1 e2, urlTr_eq_61.1 e3⟩
      · rw [if_neg hus]
        unfold b64decode
        have hn45 : ∀ c ∈ ([c1, c2, c3] : List Nat), c ≠ 45 ∧ c ≠ 95 := by
          intro c hc
          constructor <;> intro hcontra <;> subst hcontra <;>
            exact hus (by simp at hc ⊢; tauto)
        refine a2b3_error _ _ _ ?_ ?_ ?_ hne
        · rcases validB64_decodable_std c1 h1 with h | h | h | h
          · exact absurd h (hn45 c1 (by simp)).1
          · exact absurd h (hn45 c1 (by simp)).2
          · exact Or.inl h
          · exact Or.inr (Option.isSome_iff_exists.1 h)
        · rcases validB64_decodable_std c2 h2 with h | h | h | h
          · exact absurd h (hn45 c2 (by simp)).1
          · exact absurd h (hn45 c2 (by simp)).2
          · exact Or.inl h
          · exact Or.inr (Option.isSome_iff_exists.1 h)
        · rcases validB64_decodable_std c3 h3 with h | h | h | h
          · exact absurd h (hn45 c3 (by simp)).1
          · exact absurd h (hn45 c3 (by simp)).2
          · exact Or.inl h
          · exact Or.inr (Option.isSome_iff_exists.1 h)
    have hred : ∀ berr,
        (if 45 ∈ stripWs [c1, c2, c3] ∨ 95 ∈ stripWs [c1, c2, c3] then
          urlsafe_b64decode (stripWs [c1, c2, c3])
         else b64decode (stripWs [c1, c2, c3])) = .error berr →
        decode_pob_code_to_xml z [c1, c2, c3] =
          .error (asciiStr "Invalid base64 in PoB import code: " ++ berr) := by
      intro berr hb
      unfold decode_pob_code_to_xml
      rw [if_neg (by rw [hs]; simp), if_neg (by rw [hs]; simp [hall]), hb]
    rcases hberr with hb | hb
    · exact ⟨_, hred _ hb, hasSubstrB_append _ (by decide), by decide⟩
    · exact ⟨_, hred _ hb, hasSubstrB_append _ (by decide), by decide⟩
  · intro z e hz
    have hred : decode_pob_code_to_xml z [61, 61, 61] =
        match z [] with
        | .error _ =>
            .error (asciiStr "PoB import code is too short (" ++ natToDecimal 3 ++
              asciiStr " chars). Typical codes are 10,000+.")
        | .ok xmlBytes =>
            if validUtf8 xmlBytes then .ok xmlBytes
            else .error (asciiStr "PoB import code decompressed to invalid UTF-8: ") := rfl
    refine ⟨asciiStr "PoB import code is too short (" ++ natToDecimal 3 ++
      asciiStr " chars). Typical codes are 10,000+.", ?_, by decide⟩
    rw [hred, hz]

/-- Witness for C4 (amended): whitespace-only input, an input containing
`'!'`, the string `"abc"` and the string `"==="` (with a zlib stub that
fails on the empty byte string, as real zlib does). -/
theorem c4_witness :
    (stripWs [32, 10] = [] ∧
      decode_pob_code_to_xml zlibStub [32, 10] =
        .error (asciiStr "PoB import code is empty after removing whitespace")) ∧
    ((33 : Nat) ∈ ([33] : List Nat) ∧
      (∃ m, decode_pob_code_to_xml zlibStub [33] = .error m ∧
        hasSubstrB (asciiStr "invalid characters") m = true)) ∧
    ((97 : Nat) ∈ validB64Chars ∧ (98 : Nat) ∈ validB64Chars ∧
      (99 : Nat) ∈ validB64Chars ∧
      (∃ m, decode_pob_code_to_xml zlibStub [97, 98, 99] = .error m ∧
        hasSubstrB (asciiStr "Invalid base64") m = true ∧
        hasSubstrB (asciiStr "too short") m = false)) ∧
    (zlibStub [] = .error ⟨asciiStr "Error -3 while decompressing data: incorrect header check"⟩ ∧
      (∃ m, decode_pob_code_to_xml zlibStub [61, 61, 61] = .error m ∧
        hasSubstrB (asciiStr "too short") m = true)) :=
  ⟨⟨by decide, (c4_validation_tiers.1 zlibStub [32, 10] (by decide)).1⟩,
   ⟨by decide, c4_validation_tiers.2.1 zlibStub [33] (by decide)⟩,
   ⟨by decide, by decide, by decide,
    c4_validation_tiers.2.2.1 zlibStub 97 98 99 (by decide) (by decide) (by decide)
      (by decide)⟩,
   ⟨by rfl,
    c4_validation_tiers.2.2.2 zlibStub
      ⟨asciiStr "Error -3 while decompressing data: incorrect header check"⟩ (by rfl)⟩⟩

/-- Counterexample for C4 as stated: the code abc is a 3-character
string of valid base64-alphabet characters (and certainly not a valid
zlib stream), yet the raised error is the base64-stage message
"Invalid base64 in PoB import code: Incorrect padding" rather than one
containing "too short". -/
theorem c4_counterexample :
    decode_pob_code_to_xml zlibStub [97, 98, 99] =
      .error (asciiStr "Invalid base64 in PoB import code: " ++ msgIncorrectPadding) ∧
    hasSubstrB (asciiStr "too short")
      (asciiStr "Invalid base64 in PoB import code: " ++ msgIncorrectPadding) = false := by
  refine ⟨by decide, by decide⟩

/-! ### Claim C3: import-code round-trip -/

theorem a2bGo_s0 {c s : Nat} (h : a2bTable c = some s) (r : List Nat)
    (lc pads : Nat) (acc : List Nat) :
    a2bGo (c :: r) 0 lc pads acc = a2bGo r 1 s 0 acc := by
  have hc := a2bTable_ne_61 h
  simp [a2bGo, hc, h]

theorem a2bGo_s1 {c s : Nat} (h : a2bTable c = some s) (r : List Nat)
    (lc pads : Nat) (acc : List Nat) :
    a2bGo (c :: r) 1 lc pads acc =
      a2bGo r 2 (s % 16) 0 (acc ++ [lc * 4 + s / 16]) := by
  have hc := a2bTable_ne_61 h
  simp [a2bGo, hc, h]

theorem a2bGo_s2 {c s : Nat} (h : a2bTable c = some s) (r : List Nat)
    (lc pads : Nat) (acc : List Nat) :
    a2bGo (c :: r) 2 lc pads acc =
      a2bGo r 3 (s % 4) 0 (acc ++ [lc * 16 + s / 4]) := by
  have hc := a2bTable_ne_61 h
  simp [a2bGo, hc, h]

theorem a2bGo_s3 {c s : Nat} (h : a2bTable c = some s) (r : List Nat)
    (lc pads : Nat) (acc : List Nat) :
    a2bGo (c :: r) 3 lc pads acc = a2bGo r 0 0 0 (acc ++ [lc * 64 + s]) := by
  have hc := a2bTable_ne_61 h
  simp [a2bGo, hc, h]

theorem a2bGo_pad2 (r : List Nat) (lc : Nat) (acc : List Nat) :
    a2bGo (61 :: r) 2 lc 0 acc = a2bGo r 2 lc 1 acc := by
  simp [a2bGo]

theorem a2bGo_pad2' (r : List Nat) (lc : Nat) (acc : List Nat) :
    a2bGo (61 :: r) 2 lc 1 acc = .ok acc := by
  simp [a2bGo]

theorem a2bGo_pad3 (r : List Nat) (lc : Nat) (acc : List Nat) :
    a2bGo (61 :: r) 3 lc 0 acc = .ok acc := by
  simp [a2bGo]

theorem a2bTable_b2aStd : ∀ s, s < 64 → a2bTable (b2aStd s) = some s := by decide

theorem b2aStd_ne_45_95 : ∀ s, s < 64 → b2aStd s ≠ 45 ∧ b2aStd s ≠ 95 := by decide

theorem b2aStd_mem_valid : ∀ s, s < 64 → b2aStd s ∈ validB64Chars := by decide

theorem b2aUrl_mem_valid : ∀ s, s < 64 → b2aUrl s ∈ validB64Chars := by decide

theorem b2aStd_not_ws : ∀ s, s < 64 → isB64Ws (b2aStd s) = false := by decide

theorem b2aUrl_not_ws : ∀ s, s < 64 → isB64Ws (b2aUrl s) = false := by decide

theorem urlTr_b2aUrl : ∀ s, s < 64 → urlTr (b2aUrl s) = b2aStd s := by decide

/-- Every character of the base64 encoding of a byte string is `'='` or
a table image of a six-bit value. -/
theorem mem_b64encodeWith (tb : Nat → Nat) :
    ∀ (n : Nat) (y : List Nat), y.length ≤ n → (∀ b ∈ y, b < 256) →
      ∀ c ∈ b64encodeWith tb y, c = 61 ∨ ∃ s, s < 64 ∧ c = tb s := by
  intro n
  induction n with
  | zero =>
      intro y hlen _ c hc
      have hy : y = [] := List.eq_nil_of_length_eq_zero (Nat.le_zero.1 hlen)
      subst hy
      simp [b64encodeWith] at hc
  | succ n ih =>
      intro y hlen hb c hc
      rcases y with _ | ⟨b1, _ | ⟨b2, _ | ⟨b3, rest⟩⟩⟩
      · simp [b64encodeWith] at hc
      · have hb1 : b1 < 256 := hb b1 (by simp)
        simp only [b64encodeWith, List.mem_cons, List.not_mem_nil, or_false] at hc
        rcases hc with hc | hc | hc | hc
        · exact Or.inr ⟨b1 / 4, by omega, hc⟩
        · exact Or.inr ⟨(b1 % 4) * 16, by omega, hc⟩
        · exact Or.inl hc
        · exact Or.inl hc
      · have hb1 : b1 < 256 := hb b1 (by simp)
        have hb2 : b2 < 256 := hb b2 (by simp)
        simp only [b64encodeWith, List.mem_cons, List.not_mem_nil, or_false] at hc
        rcases hc with hc | hc | hc | hc
        · exact Or.inr ⟨b1 / 4, by omega, hc⟩
        · exact Or.inr ⟨(b1 % 4) * 16 + b2 / 16, by omega, hc⟩
        · exact Or.inr ⟨(b2 % 16) * 4, by omega, hc⟩
        · exact Or.inl hc
      · have hb1 : b1 < 256 := hb b1 (by simp)
        have hb2 : b2 < 256 := hb b2 (by simp)
        have hb3 : b3 < 256 := hb b3 (by simp)
        simp only [b64encodeWith, List.mem_cons] at hc
        rcases hc with hc | hc | hc | hc | hc
        · exact Or.inr ⟨b1 / 4, by omega, hc⟩
        · exact Or.inr ⟨(b1 % 4) * 16 + b2 / 16, by omega, hc⟩
        · exact Or.inr ⟨(b2 % 16) * 4 + b3 / 64, by omega, hc⟩
        · exact Or.inr ⟨b3 % 64, by omega, hc⟩
        · exact ih rest (by simp only [List.length_cons] at hlen; omega)
            (fun b hm => hb b (List.mem_cons_of_mem _ (List.mem_cons_of_mem _
              (List.mem_cons_of_mem _ hm)))) c hc

theorem b64encodeWith_ne_nil (tb : Nat → Nat) (y : List Nat) (h : y ≠ []) :
    b64encodeWith tb y ≠ [] := by
  rcases y with _ | ⟨b1, _ | ⟨b2, _ | ⟨b3, rest⟩⟩⟩
  · exact absurd rfl h
  · simp [b64encodeWith]
  · simp [b64encodeWith]
  · simp [b64encodeWith]

/-- Applying the `-`/`_` translation to the URL-safe encoding gives the
standard encoding. -/
theorem map_urlTr_encode :
    ∀ (n : Nat) (y : List Nat), y.length ≤ n → (∀ b ∈ y, b < 256) →
      (b64encodeWith b2aUrl y).map urlTr = b64encodeWith b2aStd y := by
  intro n
  induction n with
  | zero =>
      intro y hlen _
      have hy : y = [] := List.eq_nil_of_length_eq_zero (Nat.le_zero.1 hlen)
      subst hy
      rfl
  | succ n ih =>
      intro y hlen hb
      rcases y with _ | ⟨b1, _ | ⟨b2, _ | ⟨b3, rest⟩⟩⟩
      · rfl
      · have hb1 : b1 < 256 := hb b1 (by simp)
        have e1 := urlTr_b2aUrl (b1 / 4) (by omega)
        have e2 := urlTr_b2aUrl ((b1 % 4) * 16) (by omega)
        simp only [b64encodeWith, List.map]
        rw [e1, e2]
        rfl
      · have hb1 : b1 < 256 := hb b1 (by simp)
        have hb2 : b2 < 256 := hb b2 (by simp)
        have e1 := urlTr_b2aUrl (b1 / 4) (by omega)
        have e2 := urlTr_b2aUrl ((b1 % 4) * 16 + b2 / 16) (by omega)
        have e3 := urlTr_b2aUrl ((b2 % 16) * 4) (by omega)
        simp only [b64encodeWith, List.map]
        rw [e1, e2, e3]
        rfl
      · have hb1 : b1 < 256 := hb b1 (by simp)
        have hb2 : b2 < 256 := hb b2 (by simp)
        have hb3 : b3 < 256 := hb b3 (by simp)
        have e1 := urlTr_b2aUrl (b1 / 4) (by omega)
        have e2 := urlTr_b2aUrl ((b1 % 4) * 16 + b2 / 16) (by omega)
        have e3 := urlTr_b2aUrl ((b2 % 16) * 4 + b3 / 64) (by omega)
        have e4 := urlTr_b2aUrl (b3 % 64) (by omega)
        simp only [b64encodeWith, List.map]
        rw [e1, e2, e3, e4,
          ih rest (by simp only [List.length_cons] at hlen; omega)
            (fun b hm => hb b (List.mem_cons_of_mem _ (List.mem_cons_of_mem _
              (List.mem_cons_of_mem _ hm))))]

/-- The translation is the identity on a string with no `-` or `_`. -/
theorem map_urlTr_id :
    ∀ l : List Nat, (∀ c ∈ l, c ≠ 45 ∧ c ≠ 95) → l.map urlTr = l := by
  intro l
  induction l with
  | nil => intro _; rfl
  | cons c rest ih =>
      intro h
      have hc := h c (by simp)
      simp only [List.map]
      rw [show urlTr c = c from by unfold urlTr; rw [if_neg hc.1, if_neg hc.2],
        ih (fun b hb' => h b (List.mem_cons_of_mem _ hb'))]

/-- The non-strict decoder inverts the standard encoder on byte strings. -/
theorem a2b_b64encode :
    ∀ (n : Nat) (y : List Nat), y.length ≤ n → (∀ b ∈ y, b < 256) →
      ∀ acc : List Nat,
        a2bGo (b64encodeWith b2aStd y) 0 0 0 acc = .ok (acc ++ y) := by
  intro n
  induction n with
  | zero =>
      intro y hlen _ acc
      have hy : y = [] := List.eq_nil_of_length_eq_zero (Nat.le_zero.1 hlen)
      subst hy
      simp [b64encodeWith, a2bGo]
  | succ n ih =>
      intro y hlen hb acc
      rcases y with _ | ⟨b1, _ | ⟨b2, _ | ⟨b3, rest⟩⟩⟩
      · simp [b64encodeWith, a2bGo]
      · have hb1 : b1 < 256 := hb b1 (by simp)
        have e1 := a2bTable_b2aStd (b1 / 4) (by omega)
        have e2 := a2bTable_b2aStd ((b1 % 4) * 16) (by omega)
        show a2bGo [b2aStd (b1 / 4), b2aStd ((b1 % 4) * 16), 61, 61] 0 0 0 acc =
          .ok (acc ++ [b1])
        rw [a2bGo_s0 e1, a2bGo_s1 e2, a2bGo_pad2, a2bGo_pad2']
        have h1 : b1 / 4 * 4 + (b1 % 4) * 16 / 16 = b1 := by omega
        rw [h1]
      · have hb1 : b1 < 256 := hb b1 (by simp)
        have hb2 : b2 < 256 := hb b2 (by simp)
        have e1 := a2bTable_b2aStd (b1 / 4) (by omega)
        have e2 := a2bTable_b2aStd ((b1 % 4) * 16 + b2 / 16) (by omega)
        have e3 := a2bTable_b2aStd ((b2 % 16) * 4) (by omega)
        show a2bGo [b2aStd (b1 / 4), b2aStd ((b1 % 4) * 16 + b2 / 16),
            b2aStd ((b2 % 16) * 4), 61] 0 0 0 acc = .ok (acc ++ [b1, b2])
        rw [a2bGo_s0 e1, a2bGo_s1 e2, a2bGo_s2 e3, a2bGo_pad3]
        have h1 : b1 / 4 * 4 + ((b1 % 4) * 16 + b2 / 16) / 16 = b1 := by omega
        have h2 : ((b1 % 4) * 16 + b2 / 16) % 16 * 16 + (b2 % 16) * 4 / 4 = b2 := by
          omega
        rw [h1, h2]
        simp
      · have hb1 : b1 < 256 := hb b1 (by simp)
        have hb2 : b2 < 256 := hb b2 (by simp)
        have hb3 : b3 < 256 := hb b3 (by simp)
        have e1 := a2bTable_b2aStd (b1 / 4) (by omega)
        have e2 := a2bTable_b2aStd ((b1 % 4) * 16 + b2 / 16) (by omega)
        have e3 := a2bTable_b2aStd ((b2 % 16) * 4 + b3 / 64) (by omega)
        have e4 := a2bTable_b2aStd (b3 % 64) (by omega)
        show a2bGo (b2aStd (b1 / 4) :: b2aStd ((b1 % 4) * 16 + b2 / 16) ::
            b2aStd ((b2 % 16) * 4 + b3 / 64) :: b2aStd (b3 % 64) ::
            b64encodeWith b2aStd rest) 0 0 0 acc = .ok (acc ++ b1 :: b2 :: b3 :: rest)
        rw [a2bGo_s0 e1, a2bGo_s1 e2, a2bGo_s2 e3, a2bGo_s3 e4,
          ih rest (by simp only [List.length_cons] at hlen; omega)
            (fun b hm => hb b (List.mem_cons_of_mem _ (List.mem_cons_of_mem _
              (List.mem_cons_of_mem _ hm))))]
        have h1 : b1 / 4 * 4 + ((b1 % 4) * 16 + b2 / 16) / 16 = b1 := by omega
        have h2 : ((b1 % 4) * 16 + b2 / 16) % 16 * 16 +
            ((b2 % 16) * 4 + b3 / 64) / 4 = b2 := by omega
        have h3 : ((b2 % 16) * 4 + b3 / 64) % 4 * 64 + b3 % 64 = b3 := by omega
        rw [h1, h2, h3]
        simp

/-- The success path of the decoder, assembled from its stage results. -/
theorem decode_pob_ok (z : List Nat → Except ZlibErr (List Nat))
    (code compBytes x : List Nat)
    (hstrip : stripWs code = code)
    (hne : code ≠ [])
    (hall : code.all (fun c => decide (c ∈ validB64Chars)) = true)
    (hdec : (if 45 ∈ code ∨ 95 ∈ code then urlsafe_b64decode code
             else b64decode code) = .ok compBytes)
    (hz : z compBytes = .ok x)
    (hutf : validUtf8 x = true) :
    decode_pob_code_to_xml z code = .ok x := by
  unfold decode_pob_code_to_xml
  rw [hstrip]
  rw [if_neg (fun hc => hne (List.isEmpty_iff.1 hc))]
  rw [if_neg (not_not_intro hall)]
  rw [hdec]
  simp [hz, hutf]

/-- Claim C3: for every byte string `x` that is valid UTF-8, decoding
the code obtained by base64-encoding the compressed form of `x`
(standard or URL-safe alphabet) returns exactly `x`.  `zlib` is
abstracted: `zlibDecompress` is any left inverse of `compress`, and the
compressed bytes are actual bytes (`< 256`) forming a nonempty string,
as real zlib output always is. -/
theorem c3_roundtrip :
    ∀ (zlibDecompress : List Nat → Except ZlibErr (List Nat))
      (compress : List Nat → List Nat) (x : List Nat),
      (∀ b, zlibDecompress (compress b) = .ok b) →
      (∀ b ∈ compress x, b < 256) →
      compress x ≠ [] →
      validUtf8 x = true →
      decode_pob_code_to_xml zlibDecompress (b64encode (compress x)) = .ok x ∧
      decode_pob_code_to_xml zlibDecompress (urlsafe_b64encode (compress x)) =
        .ok x := by
  intro zd comp x hzd hb hcne hutf
  have hmemS := mem_b64encodeWith b2aStd (comp x).length (comp x) le_rfl hb
  have hmemU := mem_b64encodeWith b2aUrl (comp x).length (comp x) le_rfl hb
  have hdecStd : b64decode (b64encode (comp x)) = .ok (comp x) := by
    show a2bGo (b64encodeWith b2aStd (comp x)) 0 0 0 [] = .ok (comp x)
    rw [a2b_b64encode (comp x).length (comp x) le_rfl hb []]
    rw [List.nil_append]
  have hmapU : (urlsafe_b64encode (comp x)).map urlTr = b64encode (comp x) :=
    map_urlTr_encode (comp x).length (comp x) le_rfl hb
  constructor
  · have hstrip : stripWs (b64encode (comp x)) = b64encode (comp x) := by
      apply List.filter_eq_self.2
      intro c hc
      rcases hmemS c hc with h | ⟨s, hs, h⟩
      · subst h; decide
      · subst h; rw [b2aStd_not_ws s hs]; rfl
    have hall : (b64encode (comp x)).all (fun c => decide (c ∈ validB64Chars)) =
        true := by
      apply List.all_eq_true.2
      intro c hc
      rcases hmemS c hc with h | ⟨s, hs, h⟩
      · subst h; decide
      · subst h; exact decide_eq_true (b2aStd_mem_valid s hs)
    have hno : ¬ (45 ∈ b64encode (comp x) ∨ 95 ∈ b64encode (comp x)) := by
      intro hcontra
      rcases hcontra with hcontra | hcontra
      · rcases hmemS 45 hcontra with h | ⟨s, hs, h⟩
        · exact absurd h (by decide)
        · exact (b2aStd_ne_45_95 s hs).1 h.symm
      · rcases hmemS 95 hcontra with h | ⟨s, hs, h⟩
        · exact absurd h (by decide)
        · exact (b2aStd_ne_45_95 s hs).2 h.symm
    refine decode_pob_ok zd _ (comp x) x hstrip
      (b64encodeWith_ne_nil b2aStd (comp x) hcne) hall ?_ (hzd x) hutf
    rw [if_neg hno]
    exact hdecStd
  · have hstrip : stripWs (urlsafe_b64encode (comp x)) =
        urlsafe_b64encode (comp x) := by
      apply List.filter_eq_self.2
      intro c hc
      rcases hmemU c hc with h | ⟨s, hs, h⟩
      · subst h; decide
      · subst h; rw [b2aUrl_not_ws s hs]; rfl
    have hall : (urlsafe_b64encode (comp x)).all
        (fun c => decide (c ∈ validB64Chars)) = true := by
      apply List.all_eq_true.2
      intro c hc
      rcases hmemU c hc with h | ⟨s, hs, h⟩
      · subst h; decide
      · subst h; exact decide_eq_true (b2aUrl_mem_valid s hs)
    refine decode_pob_ok zd _ (comp x) x hstrip
      (b64encodeWith_ne_nil b2aUrl (comp x) hcne) hall ?_ (hzd x) hutf
    by_cases hm : 45 ∈ urlsafe_b64encode (comp x) ∨ 95 ∈ urlsafe_b64encode (comp x)
    · rw [if_pos hm]
      show b64decode ((urlsafe_b64encode (comp x)).map urlTr) = .ok (comp x)
      rw [hmapU]
      exact hdecStd
    · rw [if_neg hm]
      have hnomap : urlsafe_b64encode (comp x) = b64encode (comp x) := by
        rw [← hmapU]
        exact (map_urlTr_id _ (fun c hc =>
          ⟨fun h45 => hm (Or.inl (h45 ▸ hc)),
           fun h95 => hm (Or.inr (h95 ▸ hc))⟩)).symm
      rw [hnomap]
      exact hdecStd

/-- A stand-in compressor (prepends a marker byte) and its inverse,
instantiating the abstract zlib pair of the round-trip theorem. -/
def compStub (bs : List Nat) : List Nat :=
  0 :: bs

/-- Inverse of `compStub`: a stand-in decompressor. -/
def zdStub : List Nat → Except ZlibErr (List Nat)
  | [] => .error ⟨[]⟩
  | _ :: rest => .ok rest

/-- Witness for C3: the XML text `"<a/>"` round-trips through compression,
base64 (both alphabets) and the decoder. -/
theorem c3_witness :
    (∀ b, zdStub (compStub b) = .ok b) ∧
    (∀ b ∈ compStub [60, 97, 47, 62], b < 256) ∧
    compStub [60, 97, 47, 62] ≠ [] ∧
    validUtf8 [60, 97, 47, 62] = true ∧
    (decode_pob_code_to_xml zdStub (b64encode (compStub [60, 97, 47, 62])) =
        .ok [60, 97, 47, 62] ∧
      decode_pob_code_to_xml zdStub
        (urlsafe_b64encode (compStub [60, 97, 47, 62])) = .ok [60, 97, 47, 62]) :=
  ⟨fun b => rfl, by decide, by decide, by decide,
   c3_roundtrip zdStub compStub [60, 97, 47, 62] (fun b => rfl) (by decide)
     (by decide) (by decide)⟩

end PathOfMirrors
